import Mathlib

/-!
Verification development for the metrics-quality-dashboard repository
(`scripts/run_integrity_checks.py`).

Modelling conventions:
* Python floats are modelled as exact rationals (`ℚ`); `round(x, n)` is
  modelled as round-half-to-even (banker's rounding) of the exact rational.
* Python dicts of rows become structures with `Option` fields; `row.get(k, d)`
  becomes `Option.getD`.
* `statistics.pstdev` is the square root of the population variance.  Since
  `Real.sqrt` is not computable, definitions that only *compare* against the
  stdev are written with squared comparisons (proved equivalent to the
  square-root form in the theorems below), and the rounded z-score quotient
  `round((value - mean) / sqrt var, 3)` is computed exactly through integer
  square roots (`roundDivSqrt`), again with a bridging theorem to `Real.sqrt`.
* Division by zero in `ℚ` yields `0` (Lean convention); the source never
  divides by zero on the inputs covered by the claims.
-/

namespace MetricsIntegrity

/-- Round-half-to-even (banker's rounding) of a rational to an integer.
This is Python's `round(x)` on exact values. -/
def roundHalfEven (q : ℚ) : ℤ :=
  let f := ⌊q⌋
  let r := q - (f : ℚ)
  if r < 1/2 then f
  else if 1/2 < r then f + 1
  else if 2 ∣ f then f else f + 1

/-- Python `round(x, 1)` on exact rationals. -/
def round1 (q : ℚ) : ℚ := (roundHalfEven (q * 10) : ℚ) / 10

/-- Python `round(x, 2)` on exact rationals. -/
def round2 (q : ℚ) : ℚ := (roundHalfEven (q * 100) : ℚ) / 100

/-- Population mean, `statistics.mean` (with the `ℚ` convention `sum [] / 0 = 0`). -/
def pmean (xs : List ℚ) : ℚ := xs.sum / (xs.length : ℚ)

/-- Population variance, the square of `statistics.pstdev`. -/
def pvariance (xs : List ℚ) : ℚ :=
  ((xs.map (fun x => (x - pmean xs) ^ 2)).sum) / (xs.length : ℚ)

/-- Floor of the square root of a nonnegative rational, computed exactly. -/
def isqrtFloorQ (r : ℚ) : ℕ :=
  Nat.sqrt (r.num.toNat * r.den) / r.den

/-- Floor of `a / Real.sqrt v` for rationals `a v` with `0 < v`, computed exactly. -/
def floorDivSqrt (a v : ℚ) : ℤ :=
  if 0 ≤ a then (isqrtFloorQ (a ^ 2 / v) : ℤ)
  else if (isqrtFloorQ (a ^ 2 / v) : ℚ) ^ 2 * v = a ^ 2 then -(isqrtFloorQ (a ^ 2 / v) : ℤ)
  else -(isqrtFloorQ (a ^ 2 / v) : ℤ) - 1

/-- Three-way comparison of `a / Real.sqrt v` against the integer `k`
(for `0 < v`), computed exactly by comparing squares. -/
def cmpDivSqrt (a v : ℚ) (k : ℤ) : Ordering :=
  if 0 ≤ a then
    if k < 0 then .gt
    else if a ^ 2 < (k : ℚ) ^ 2 * v then .lt
    else if a ^ 2 = (k : ℚ) ^ 2 * v then .eq
    else .gt
  else
    if 0 ≤ k then .lt
    else if (k : ℚ) ^ 2 * v < a ^ 2 then .lt
    else if (k : ℚ) ^ 2 * v = a ^ 2 then .eq
    else .gt

/-- Round-half-to-even of `a / Real.sqrt v` (for `0 < v`), computed exactly. -/
def roundDivSqrt (a v : ℚ) : ℤ :=
  match cmpDivSqrt (2 * a) v (2 * floorDivSqrt a v + 1) with
  | .lt => floorDivSqrt a v
  | .gt => floorDivSqrt a v + 1
  | .eq => if 2 ∣ floorDivSqrt a v then floorDivSqrt a v else floorDivSqrt a v + 1

/-- The `calc_z_score` statistics utility: `None` for fewer than 2 data points,
`0.0` when the population standard deviation `Real.sqrt pvariance` is zero,
otherwise `round((value - mean) / pstdev, 3)`.  The quotient
by the irrational `pstdev = sqrt pvariance` is computed exactly via
`roundDivSqrt`; the bridging theorem `roundDivSqrt_spec` relates it to
`Real.sqrt`. -/
def calc_z_score (value : ℚ) (values : List ℚ) : Option ℚ :=
  if values.length < 2 then none
  else if pvariance values = 0 then some 0
  else some ((roundDivSqrt (1000 * (value - pmean values)) (pvariance values) : ℚ) / 1000)

/-- The `calc_iqr_bounds` statistics utility: sort, take Q1 and Q3 at the
positional indices `n / 4` and `(3 * n) / 4`, return the 1.5-IQR fences. -/
def calc_iqr_bounds (values : List ℚ) : ℚ × ℚ :=
  ((values.insertionSort (· ≤ ·)).getD (values.length / 4) 0
      - 1.5 * ((values.insertionSort (· ≤ ·)).getD ((3 * values.length) / 4) 0
          - (values.insertionSort (· ≤ ·)).getD (values.length / 4) 0),
   (values.insertionSort (· ≤ ·)).getD ((3 * values.length) / 4) 0
      + 1.5 * ((values.insertionSort (· ≤ ·)).getD ((3 * values.length) / 4) 0
          - (values.insertionSort (· ≤ ·)).getD (values.length / 4) 0))

/-- The window slice `values[i - window : i]` used by `detect_trend_break`. -/
def windowAt (values : List ℚ) (window i : ℕ) : List ℚ :=
  (values.drop (i - window)).take window

/-- The break condition of `detect_trend_break` at index `i`:
`abs(values[i] - moving_avg) > threshold_sigma * (pstdev(window) or 1.0)`.
The comparison against `pstdev = sqrt pvariance` is done on squares so that it
stays decidable; the C5 theorem proves it extensionally equal to the
square-root form. -/
def isTrendBreakAt (values : List ℚ) (window : ℕ) (threshold_sigma : ℚ) (i : ℕ) : Bool :=
  if pvariance (windowAt values window i) = 0 then
    decide (threshold_sigma < |values.getD i 0 - pmean (windowAt values window i)|)
  else if threshold_sigma < 0 then true
  else decide (threshold_sigma ^ 2 * pvariance (windowAt values window i)
      < (values.getD i 0 - pmean (windowAt values window i)) ^ 2)

/-- The `detect_trend_break` statistics utility (defaults `window=3`,
`threshold_sigma=2.0`): flag each index `i` in `range(window, len(values))`
whose value deviates from the mean of the preceding window by more than
`threshold_sigma` times its (1.0-floored) population stdev.  The loop index
list `range(window, len(values))` is `List.range' window (len - window)`. -/
def detect_trend_break (values : List ℚ) (window : ℕ) (threshold_sigma : ℚ) : List ℕ :=
  if values.length < window + 1 then []
  else (List.range' window (values.length - window)).filter
    (isTrendBreakAt values window threshold_sigma)

/-- Keys of a Python dict in insertion order: first occurrences, in order. -/
def firstOccur : List String → List String
  | [] => []
  | x :: xs => x :: (firstOccur xs).filter (fun y => y ≠ x)

/-- Python `sorted` on strings (lexicographic by code point). -/
def sortStr (l : List String) : List String :=
  l.insertionSort (fun a b => ¬ b < a)

/-- The `IntegrityCheckResult` dataclass.  The impure `timestamp` field
(defaulted to `datetime.now()`) is not modelled; no claim concerns it. -/
structure IntegrityCheckResult where
  check_name : String
  check_category : String
  severity : String
  expected_value : ℚ
  actual_value : ℚ
  difference : ℚ
  tolerance : ℚ
  status : String
  detail : String
deriving DecidableEq, Inhabited

/-- `IntegrityCheckResult.is_passed`. -/
def IntegrityCheckResult.is_passed (r : IntegrityCheckResult) : Bool :=
  r.status == "PASS"

/-- `IntegrityCheckResult.is_critical_failure`. -/
def IntegrityCheckResult.is_critical_failure (r : IntegrityCheckResult) : Bool :=
  !r.is_passed && r.severity == "CRITICAL"

/-- One line of the `by_category` breakdown of `get_summary`. -/
structure CategorySummary where
  category : String
  total : ℕ
  passed : ℕ
  failed : ℕ
  pass_rate : ℚ
deriving DecidableEq

/-- The dictionary returned by `MetricsIntegrityChecker.get_summary`
(the impure `check_date` field is not modelled; no claim concerns it). -/
structure Summary where
  total_checks : ℕ
  passed : ℕ
  failed : ℕ
  critical_failures : ℕ
  overall_pass_rate : ℚ
  overall_status : String
  by_category : List CategorySummary
  failed_checks : List IntegrityCheckResult
deriving DecidableEq

/-- The per-category entry built by `get_summary` (incremental counting in the
source; extensionally the filter counts below). -/
def categorySummaryFor (results : List IntegrityCheckResult) (cat : String) :
    CategorySummary :=
  { category := cat
    total := (results.filter (fun r => r.check_category == cat)).length
    passed := ((results.filter (fun r => r.check_category == cat)).filter
        (fun r => r.is_passed)).length
    failed := ((results.filter (fun r => r.check_category == cat)).filter
        (fun r => !r.is_passed)).length
    pass_rate := round1
      ((((results.filter (fun r => r.check_category == cat)).filter
          (fun r => r.is_passed)).length : ℚ)
        / ((max (results.filter (fun r => r.check_category == cat)).length 1 : ℕ) : ℚ)
        * 100) }

/-- `MetricsIntegrityChecker.get_summary`, as a pure function of the
accumulated result sequence `self.results`. -/
def get_summary (results : List IntegrityCheckResult) : Summary :=
  { total_checks := results.length
    passed := (results.filter (fun r => r.is_passed)).length
    failed := results.length - (results.filter (fun r => r.is_passed)).length
    critical_failures := (results.filter (fun r => r.is_critical_failure)).length
    overall_pass_rate := round1
      (((results.filter (fun r => r.is_passed)).length : ℚ)
        / ((max results.length 1 : ℕ) : ℚ) * 100)
    overall_status :=
      if results.length - (results.filter (fun r => r.is_passed)).length = 0 then "PASS"
      else if 0 < (results.filter (fun r => r.is_critical_failure)).length then "CRITICAL"
      else "WARNING"
    by_category := (firstOccur (results.map (fun r => r.check_category))).map
      (categorySummaryFor results)
    failed_checks := results.filter (fun r => !r.is_passed) }

/-! Rows of the input tables.  Each structure lists only the fields the
corresponding check reads via `row.get`; a missing key is `none`. -/

/-- Row of the usage table read by `check_sum_integrity`. -/
structure UsageRow where
  year_month : Option String
  card_company : Option String
  usage_amount : Option ℚ
deriving DecidableEq

/-- `str(row.get("year_month", ""))`. -/
def UsageRow.ym (r : UsageRow) : String := r.year_month.getD ("")

/-- `row.get("card_company", "")`. -/
def UsageRow.company (r : UsageRow) : String := r.card_company.getD ("")

/-- `float(row.get("usage_amount", 0))`. -/
def UsageRow.amount (r : UsageRow) : ℚ := r.usage_amount.getD 0

/-- Period keys iterated by `check_sum_integrity` (`sorted(monthly.items())`;
dict keys are first occurrences). -/
def sumKeys (data : List UsageRow) : List String :=
  sortStr (firstOccur (data.map UsageRow.ym))

/-- The accumulated `monthly[ym]["total"]`. -/
def sumTotal (data : List UsageRow) (ym : String) : ℚ :=
  ((data.filter (fun r => r.ym == ym)).map UsageRow.amount).sum

/-- Companies appearing in a period, in dict insertion order. -/
def sumCompanies (data : List UsageRow) (ym : String) : List String :=
  firstOccur ((data.filter (fun r => r.ym == ym)).map UsageRow.company)

/-- `sum(totals["by_company"].values())`. -/
def sumByCompany (data : List UsageRow) (ym : String) : ℚ :=
  ((sumCompanies data ym).map (fun c =>
    ((data.filter (fun r => r.ym == ym && r.company == c)).map UsageRow.amount).sum)).sum

/-- The unrounded `diff = abs(totals["total"] - company_sum)` of
`check_sum_integrity` for one period. -/
def sumDiffRaw (data : List UsageRow) (ym : String) : ℚ :=
  |sumTotal data ym - sumByCompany data ym|

/-- CHECK 1, `check_sum_integrity`.  The configuration lookups
`cfg.get("tolerance", 1)` and `cfg.get("severity", "CRITICAL")` are passed in
as `tol` and `sev`. -/
def check_sum_integrity (data : List UsageRow) (tol : ℚ) (sev : String) :
    List IntegrityCheckResult :=
  (sumKeys data).map (fun ym =>
    { check_name := "전체 이용금액 = 카드사별 합계"
      check_category := "sum_integrity"
      severity := sev
      expected_value := round2 (sumTotal data ym)
      actual_value := round2 (sumByCompany data ym)
      difference := round2 (sumDiffRaw data ym)
      tolerance := tol
      status := if sumDiffRaw data ym < tol then "PASS" else "FAIL"
      detail := "year_month=" ++ ym })

/-- Row of the market-share table read by `check_market_share_integrity`
and `check_cross_kpi_consistency`. -/
structure ShareRow where
  year_month : Option String
  card_company : Option String
  market_share_pct : Option ℚ
  share_change_pp : Option ℚ
deriving DecidableEq

def ShareRow.ym (r : ShareRow) : String := r.year_month.getD ("")

/-- The accumulated `monthly_shares[ym]`. -/
def shareTotal (data : List ShareRow) (ym : String) : ℚ :=
  ((data.filter (fun r => r.ym == ym)).map (fun r => r.market_share_pct.getD 0)).sum

def shareKeys (data : List ShareRow) : List String :=
  sortStr (firstOccur (data.map ShareRow.ym))

/-- CHECK 2, `check_market_share_integrity`. -/
def check_market_share_integrity (data : List ShareRow) (tol : ℚ) (sev : String) :
    List IntegrityCheckResult :=
  (shareKeys data).map (fun ym =>
    { check_name := "시장 점유율 합계 = 100%"
      check_category := "ratio_integrity"
      severity := sev
      expected_value := 100
      actual_value := round2 (shareTotal data ym)
      difference := round2 |100 - shareTotal data ym|
      tolerance := tol
      status := if |100 - shareTotal data ym| < tol then "PASS" else "FAIL"
      detail := "year_month=" ++ ym })

/-- Row of the category-share table read by `check_category_ratio_integrity`. -/
structure CategoryRow where
  year_month : Option String
  card_company : Option String
  business_category : Option String
  category_share_pct : Option ℚ
deriving DecidableEq

/-- The composite group key `f"{ym}|{company}"`. -/
def CategoryRow.key (r : CategoryRow) : String :=
  r.year_month.getD ("") ++ "|" ++ r.card_company.getD ("")

/-- The accumulated `groups[key]`. -/
def catTotal (data : List CategoryRow) (key : String) : ℚ :=
  ((data.filter (fun r => r.key == key)).map (fun r => r.category_share_pct.getD 0)).sum

def catKeys (data : List CategoryRow) : List String :=
  sortStr (firstOccur (data.map CategoryRow.key))

/-- Python `key.split("|", 1)`: the part before the first bar and the rest. -/
def splitBarFirst (s : String) : String × String :=
  (String.mk (s.toList.takeWhile (fun ch => ch ≠ '|')),
   String.mk ((s.toList.dropWhile (fun ch => ch ≠ '|')).drop 1))

/-- CHECK 3, `check_category_ratio_integrity`. -/
def check_category_ratio_integrity (data : List CategoryRow) (tol : ℚ) (sev : String) :
    List IntegrityCheckResult :=
  (catKeys data).map (fun key =>
    { check_name := "업종별 비율 합계 = 100% (카드사별)"
      check_category := "ratio_integrity"
      severity := sev
      expected_value := 100
      actual_value := round2 (catTotal data key)
      difference := round2 |100 - catTotal data key|
      tolerance := tol
      status := if |100 - catTotal data key| < tol then "PASS" else "FAIL"
      detail := "year_month=" ++ (splitBarFirst key).1 ++ ", company="
          ++ (splitBarFirst key).2 })

/-- Row of the growth table read by `check_formula_mom` and `check_formula_yoy`. -/
structure GrowthRow where
  year_month : Option String
  card_company : Option String
  current_amount : Option ℚ
  prev_month_amount : Option ℚ
  previous_amount : Option ℚ
  prev_year_amount : Option ℚ
  mom_growth_rate : Option ℚ
  yoy_growth_rate : Option ℚ
deriving DecidableEq

/-- Python truthiness fallback `row.get("prev_month_amount") or
row.get("previous_amount")`: the first operand wins unless it is falsy
(`None` or `0`). -/
def orFalsy (a b : Option ℚ) : Option ℚ :=
  match a with
  | some x => if x = 0 then b else some x
  | none => b

/-- The guard block of `check_formula_mom`: extract `(mom, prev, curr)` when
none is missing and `mom != 0`; otherwise the row is skipped. -/
def momTriple (row : GrowthRow) : Option (ℚ × ℚ × ℚ) :=
  match row.mom_growth_rate, orFalsy row.prev_month_amount row.previous_amount,
      row.current_amount with
  | some mom, some prev, some curr =>
    if mom = 0 then none else some (mom, prev, curr)
  | _, _, _ => none

/-- `reverse_calc = round(curr / (1 + mom / 100.0), 0)`. -/
def reverseCalc (rate curr : ℚ) : ℚ :=
  (roundHalfEven (curr / (1 + rate / 100)) : ℚ)

/-- The result built by `check_formula_mom` for one surviving row. -/
def mkMomResult (tol : ℚ) (sev : String) (row : GrowthRow) (t : ℚ × ℚ × ℚ) :
    IntegrityCheckResult :=
  { check_name := "MoM 성장률 역산 검증"
    check_category := "formula_integrity"
    severity := sev
    expected_value := t.2.1
    actual_value := reverseCalc t.1 t.2.2
    difference := round2 |t.2.1 - reverseCalc t.1 t.2.2|
    tolerance := tol
    status := if |t.2.1 - reverseCalc t.1 t.2.2| < tol then "PASS" else "FAIL"
    detail := "year_month=" ++ row.year_month.getD ("") ++ ", company="
        ++ row.card_company.getD ("") }

/-- CHECK 4, `check_formula_mom`. -/
def check_formula_mom (data : List GrowthRow) (tol : ℚ) (sev : String) :
    List IntegrityCheckResult :=
  data.filterMap (fun row => (momTriple row).map (mkMomResult tol sev row))

/-- The guard block of `check_formula_yoy` (`prev_year_amount` has no
truthiness fallback in the source). -/
def yoyTriple (row : GrowthRow) : Option (ℚ × ℚ × ℚ) :=
  match row.yoy_growth_rate, row.prev_year_amount, row.current_amount with
  | some yoy, some prevY, some curr =>
    if yoy = 0 then none else some (yoy, prevY, curr)
  | _, _, _ => none

/-- The result built by `check_formula_yoy` for one surviving row. -/
def mkYoyResult (tol : ℚ) (sev : String) (row : GrowthRow) (t : ℚ × ℚ × ℚ) :
    IntegrityCheckResult :=
  { check_name := "YoY 성장률 역산 검증"
    check_category := "formula_integrity"
    severity := sev
    expected_value := t.2.1
    actual_value := reverseCalc t.1 t.2.2
    difference := round2 |t.2.1 - reverseCalc t.1 t.2.2|
    tolerance := tol
    status := if |t.2.1 - reverseCalc t.1 t.2.2| < tol then "PASS" else "FAIL"
    detail := "year_month=" ++ row.year_month.getD ("") ++ ", company="
        ++ row.card_company.getD ("") }

/-- CHECK 5, `check_formula_yoy`. -/
def check_formula_yoy (data : List GrowthRow) (tol : ℚ) (sev : String) :
    List IntegrityCheckResult :=
  data.filterMap (fun row => (yoyTriple row).map (mkYoyResult tol sev row))

/-- Row of the monthly table read by `check_continuity`,
`check_statistical_anomaly` and `check_trend_breaks`. -/
structure MonthRow where
  year_month : Option String
  card_company : Option String
  total_usage_amount : Option ℚ
  usage_amount : Option ℚ
deriving DecidableEq

def MonthRow.ym (r : MonthRow) : String := r.year_month.getD ("")

def MonthRow.company (r : MonthRow) : String := r.card_company.getD ("")

/-- `float(row.get("total_usage_amount", row.get("usage_amount", 0)))`. -/
def MonthRow.amount (r : MonthRow) : ℚ :=
  r.total_usage_amount.getD (r.usage_amount.getD 0)

/-- Companies iterated by `check_continuity`
(`sorted(company_months.items())`). -/
def contCompanies (data : List MonthRow) : List String :=
  sortStr (firstOccur (data.map MonthRow.company))

/-- The sorted distinct period strings of one company
(`sorted(company_months[company])`). -/
def monthsOf (data : List MonthRow) (c : String) : List String :=
  sortStr (firstOccur ((data.filter (fun r => r.company == c)).map MonthRow.ym))

/-- Parse the `YYYY-MM` prefix accepted by
`datetime.strptime(s[:7], "%Y-%m")` in its canonical zero-padded form
(year at least 1, month in 1..12); anything else falls back to the
`expected = len(sorted_m)` branch of the source. -/
def parseYM (s : String) : Option (ℤ × ℤ) :=
  match s.toList.take 7 with
  | [a, b, c, d, dash, e, f] =>
    if a.isDigit && b.isDigit && c.isDigit && d.isDigit && dash == '-'
        && e.isDigit && f.isDigit then
      if 1 ≤ ((a.toNat - 48) * 1000 + (b.toNat - 48) * 100 + (c.toNat - 48) * 10
            + (d.toNat - 48)) ∧
          1 ≤ ((e.toNat - 48) * 10 + (f.toNat - 48)) ∧
          ((e.toNat - 48) * 10 + (f.toNat - 48)) ≤ 12 then
        some (((a.toNat - 48) * 1000 + (b.toNat - 48) * 100 + (c.toNat - 48) * 10
            + (d.toNat - 48) : ℕ),
          ((e.toNat - 48) * 10 + (f.toNat - 48) : ℕ))
      else none
    else none
  | _ => none

/-- The number of calendar months spanned by the first and last period of one
company, or `len(sorted_m)` when parsing fails. -/
def expectedMonths (ms : List String) : ℤ :=
  match parseYM (ms.headD ("")), parseYM (ms.getLastD ("")) with
  | some (y1, m1), some (y2, m2) => (y2 - y1) * 12 + (m2 - m1) + 1
  | _, _ => (ms.length : ℤ)

/-- The loop body of `check_continuity` for one company: `none` when the
company has fewer than two distinct periods (`continue`). -/
def continuityFor (data : List MonthRow) (maxMissing : ℚ) (sev : String)
    (c : String) : Option IntegrityCheckResult :=
  if (monthsOf data c).length < 2 then none
  else
    some
      { check_name := "데이터 연속성 검증 (월 누락)"
        check_category := "continuity_integrity"
        severity := sev
        expected_value := (expectedMonths (monthsOf data c) : ℚ)
        actual_value := ((monthsOf data c).length : ℚ)
        difference := ((expectedMonths (monthsOf data c)
            - ((monthsOf data c).length : ℤ) : ℤ) : ℚ)
        tolerance := maxMissing
        status :=
          if ((expectedMonths (monthsOf data c)
              - ((monthsOf data c).length : ℤ) : ℤ) : ℚ) ≤ maxMissing
          then "PASS" else "FAIL"
        detail := "company=" ++ c ++ ", months=" ++ toString (monthsOf data c).length
            ++ "/" ++ toString (expectedMonths (monthsOf data c)) }

/-- CHECK 7, `check_continuity`.  `maxMissing` is
`cfg.get("max_missing_months", 0)`. -/
def check_continuity (data : List MonthRow) (maxMissing : ℚ) (sev : String) :
    List IntegrityCheckResult :=
  (contCompanies data).filterMap (continuityFor data maxMissing sev)

/-- The `(ym, amount)` records of one company in `check_statistical_anomaly`,
in input order. -/
def recordsOf (data : List MonthRow) (c : String) : List (String × ℚ) :=
  (data.filter (fun r => r.company == c)).map (fun r => (r.ym, r.amount))

/-- Severity classification of one z-score
(`CRITICAL` above `z_score_critical`, `WARNING` above `z_score_warning`,
`INFO` otherwise). -/
def zLevel (zWarning zCritical z : ℚ) : String :=
  if zCritical < |z| then "CRITICAL"
  else if zWarning < |z| then "WARNING"
  else "INFO"

/-- The `all_z_scores` list: for each company (in sorted order) with at least
3 observations, one entry `(company, ym, z, level)` per record whose z-score
is not `None`. -/
def allZScores (data : List MonthRow) (zWarning zCritical : ℚ) :
    List (String × String × ℚ × String) :=
  (sortStr (firstOccur (data.map MonthRow.company))).flatMap (fun c =>
    if (recordsOf data c).length < 3 then []
    else (recordsOf data c).filterMap (fun p =>
      (calc_z_score p.2 ((recordsOf data c).map Prod.snd)).map (fun z =>
        (c, p.1, z, zLevel zWarning zCritical z))))

/-- `critical_ratio = round(critical_count / total_count * 100, 2)` where
`total_count = len(all_z_scores) or 1`. -/
def criticalRatioOf (data : List MonthRow) (zWarning zCritical : ℚ) : ℚ :=
  round2
    ((((allZScores data zWarning zCritical).filter
        (fun e => e.2.2.2 == "CRITICAL")).length : ℚ)
      / ((max (allZScores data zWarning zCritical).length 1 : ℕ) : ℚ) * 100)

/-- The single summary result emitted by `check_statistical_anomaly`. -/
def anomalySummary (data : List MonthRow) (zWarning zCritical maxRatio : ℚ)
    (sev : String) : IntegrityCheckResult :=
  { check_name := "Z-Score 이상치 비율 검증 (<5%)"
    check_category := "statistical_integrity"
    severity := sev
    expected_value := maxRatio
    actual_value := criticalRatioOf data zWarning zCritical
    difference := max 0 (criticalRatioOf data zWarning zCritical - maxRatio)
    tolerance := maxRatio
    status := if criticalRatioOf data zWarning zCritical ≤ maxRatio
        then "PASS" else "FAIL"
    detail := "critical_count="
        ++ toString ((allZScores data zWarning zCritical).filter
            (fun e => e.2.2.2 == "CRITICAL")).length
        ++ ", total=" ++ toString (max (allZScores data zWarning zCritical).length 1) }

/-- The auxiliary IQR results of `check_statistical_anomaly`: for each company
(sorted) with at least 4 observations, one INFO/FAIL result per value outside
the IQR fences.  The `bounds=[..]` suffix of the source's detail string
(printf-style float formatting) is not modelled; no claim concerns it. -/
def iqrResults (data : List MonthRow) : List IntegrityCheckResult :=
  (sortStr (firstOccur (data.map MonthRow.company))).flatMap (fun c =>
    if (recordsOf data c).length < 4 then []
    else ((recordsOf data c).filter (fun p =>
        p.2 < (calc_iqr_bounds ((recordsOf data c).map Prod.snd)).1
          || (calc_iqr_bounds ((recordsOf data c).map Prod.snd)).2 < p.2)).map
      (fun p =>
        { check_name := "IQR 이상치 탐지"
          check_category := "statistical_integrity"
          severity := "INFO"
          expected_value := round2 (calc_iqr_bounds ((recordsOf data c).map Prod.snd)).2
          actual_value := round2 p.2
          difference := round2
            (if (calc_iqr_bounds ((recordsOf data c).map Prod.snd)).2 < p.2
             then |p.2 - (calc_iqr_bounds ((recordsOf data c).map Prod.snd)).2|
             else |(calc_iqr_bounds ((recordsOf data c).map Prod.snd)).1 - p.2|)
          tolerance := 0
          status := "FAIL"
          detail := "company=" ++ c ++ ", year_month=" ++ p.1 }))

/-- CHECK 8, `check_statistical_anomaly`: the z-score-ratio summary result
followed by the individual IQR outlier results. -/
def check_statistical_anomaly (data : List MonthRow)
    (zWarning zCritical maxRatio : ℚ) (sev : String) : List IntegrityCheckResult :=
  anomalySummary data zWarning zCritical maxRatio sev :: iqrResults data

/-! Configuration schema validation.  `validate_config_schema` is imported by
`tests/test_integrity_checks.py` but the function itself is not present in
`scripts/run_integrity_checks.py`; it is modelled from the spec below. -/

/-- Modelled from the spec: a YAML-like configuration value
(the repository's `validate_config_schema` input). -/
inductive CVal where
  | num (q : ℚ)
  | str (s : String)
  | list (xs : List CVal)
  | map (entries : List (String × CVal))
  | null

/-- Dictionary lookup on the entry list of a `CVal.map`. -/
def lookupKey : List (String × CVal) → String → Option CVal
  | [], _ => none
  | (k, v) :: rest, key => if k == key then some v else lookupKey rest key

/-- The ten required check keys with their required numeric fields (from the
defaults in `load_config` and the valid fixture in the tests). -/
def requiredChecks : List (String × List String) :=
  [("sum_integrity", ["tolerance"]),
   ("ratio_market_share", ["tolerance"]),
   ("ratio_category", ["tolerance"]),
   ("formula_mom", ["tolerance"]),
   ("formula_yoy", ["tolerance"]),
   ("range_activation", ["min", "max"]),
   ("range_hhi", ["min", "max"]),
   ("continuity", ["max_missing_months"]),
   ("statistical_anomaly", ["z_score_warning", "z_score_critical"]),
   ("cross_kpi", ["share_change_threshold", "growth_rate_threshold"])]

/-- Modelled from the spec: one violation message when a required numeric
field is missing or non-numeric. -/
def validateField (kname : String) (kv : List (String × CVal))
    (fname : String) : List String :=
  match lookupKey kv fname with
  | none => [kname ++ "." ++ fname ++ " 필드가 없습니다"]
  | some (CVal.num _) => []
  | some _ => [kname ++ "." ++ fname ++ " 타입 오류"]

/-- Modelled from the spec: one violation message when `severity` is missing
or outside CRITICAL, WARNING, INFO. -/
def validateSeverity (kname : String) (kv : List (String × CVal)) : List String :=
  match lookupKey kv ("severity") with
  | none => [kname ++ ".severity 필드가 없습니다"]
  | some (CVal.str s) =>
    if s = "CRITICAL" ∨ s = "WARNING" ∨ s = "INFO" then []
    else [kname ++ ".severity 값 오류"]
  | some _ => [kname ++ ".severity 값 오류"]

/-- Modelled from the spec: the violations of one required check key. -/
def validateThresholdKey (th : List (String × CVal)) (key : String)
    (fields : List String) : List String :=
  match lookupKey th key with
  | none => [key ++ " 키가 없습니다"]
  | some (CVal.map kv) =>
    (fields.flatMap (validateField key kv)) ++ validateSeverity key kv
  | some _ => [key ++ "가 딕셔너리가 아닙니다"]

/-- Modelled from the spec: the `thresholds` section violations —
the section must be present, be a mapping, and contain the ten required
check keys. -/
def validateThresholds (entries : List (String × CVal)) : List String :=
  match lookupKey entries ("thresholds") with
  | none => ["thresholds 섹션이 없습니다"]
  | some (CVal.map th) =>
    requiredChecks.flatMap (fun kf => validateThresholdKey th kf.1 kf.2)
  | some _ => ["thresholds가 딕셔너리가 아닙니다"]

/-- Modelled from the spec: `retention_days`, when present and numeric, must
be non-negative. -/
def validateRetention (rep : List (String × CVal)) : List String :=
  match lookupKey rep ("retention_days") with
  | some (CVal.num q) =>
    if q < 0 then ["reporting.retention_days는 음수가 될 수 없습니다"] else []
  | _ => []

/-- Modelled from the spec: `reporting.retention_days`, when present, must be
non-negative. -/
def validateReporting (entries : List (String × CVal)) : List String :=
  match lookupKey entries ("reporting") with
  | some (CVal.map rep) => validateRetention rep
  | _ => []

/-- Modelled from the spec: `validate_config_schema`, absent from
`scripts/run_integrity_checks.py` though imported by the tests.  It checks
that the top-level config is a mapping, that `thresholds` is present and is a
mapping, that each of the ten required check keys is present with its required
numeric fields and an allowed severity, and that `reporting.retention_days`
(if present) is non-negative; all violations are collected into a list of
human-readable messages (one per violation), never raised. -/
def validate_config_schema (cfg : CVal) : List String :=
  match cfg with
  | CVal.map entries => validateThresholds entries ++ validateReporting entries
  | _ => ["설정이 딕셔너리가 아닙니다"]

/-- The allowed severity values, as the spec words them. -/
def SeverityOk (s : String) : Prop :=
  s = "CRITICAL" ∨ s = "WARNING" ∨ s = "INFO"

/-- Validity of one required check key, as the spec words it. -/
def ThresholdKeyValid (th : List (String × CVal)) (key : String)
    (fields : List String) : Prop :=
  ∃ kv, lookupKey th key = some (CVal.map kv) ∧
    (∀ f ∈ fields, ∃ q, lookupKey kv f = some (CVal.num q)) ∧
    ∃ s, lookupKey kv ("severity") = some (CVal.str s) ∧ SeverityOk s

/-- Validity of a whole configuration, following the spec sentence by
sentence: the top level is a mapping, `thresholds` is present and is a
mapping, every required check key is valid, and `reporting.retention_days`
(when present) is non-negative. -/
def ConfigValid (cfg : CVal) : Prop :=
  ∃ entries, cfg = CVal.map entries ∧
    (∃ th, lookupKey entries ("thresholds") = some (CVal.map th) ∧
      ∀ kf ∈ requiredChecks, ThresholdKeyValid th kf.1 kf.2) ∧
    (∀ rep q, lookupKey entries ("reporting") = some (CVal.map rep) →
      lookupKey rep ("retention_days") = some (CVal.num q) → 0 ≤ q)

end MetricsIntegrity

namespace MetricsIntegrity

/-! Basic facts about the rounding and square-root helpers. -/

theorem roundHalfEven_ge_floor (q : ℚ) : ⌊q⌋ ≤ roundHalfEven q := by
  unfold roundHalfEven
  dsimp only
  split
  · exact le_refl _
  · split
    · exact le_of_lt (lt_add_one _)
    · split
      · exact le_refl _
      · exact le_of_lt (lt_add_one _)

theorem roundHalfEven_le_floor_add_one (q : ℚ) : roundHalfEven q ≤ ⌊q⌋ + 1 := by
  unfold roundHalfEven
  dsimp only
  split
  · exact le_of_lt (lt_add_one _)
  · split
    · exact le_refl _
    · split
      · exact le_of_lt (lt_add_one _)
      · exact le_refl _

theorem roundHalfEven_nonneg {q : ℚ} (h : 0 ≤ q) : 0 ≤ roundHalfEven q := by
  have : (0 : ℤ) ≤ ⌊q⌋ := Int.le_floor.mpr (by exact_mod_cast h)
  exact le_trans this (roundHalfEven_ge_floor q)

theorem roundHalfEven_le_of_le {q : ℚ} {B : ℤ} (h : q ≤ (B : ℚ)) :
    roundHalfEven q ≤ B := by
  rcases eq_or_lt_of_le h with heq | hlt
  · have hf : ⌊q⌋ = B := by rw [heq]; exact Int.floor_intCast B
    unfold roundHalfEven
    dsimp only
    have hr : q - (⌊q⌋ : ℚ) = 0 := by rw [hf, ← heq]; ring
    rw [hr, if_pos (by norm_num)]
    exact le_of_eq hf
  · have hfl : ⌊q⌋ < B := by
      have := Int.floor_le_floor (le_of_lt hlt)
      rw [Int.floor_intCast] at this
      rcases eq_or_lt_of_le this with he | hl
      · exfalso
        have : (B : ℚ) ≤ q := by rw [← he]; exact Int.floor_le q
        exact absurd hlt (not_lt_of_le this)
      · exact hl
    exact le_trans (roundHalfEven_le_floor_add_one q) (by omega)

theorem round1_nonneg {q : ℚ} (h : 0 ≤ q) : 0 ≤ round1 q := by
  unfold round1
  have h10 : (0 : ℚ) ≤ q * 10 := by positivity
  have := roundHalfEven_nonneg h10
  positivity

theorem round1_le_100 {q : ℚ} (h : q ≤ 100) : round1 q ≤ 100 := by
  unfold round1
  have h10 : q * 10 ≤ ((1000 : ℤ) : ℚ) := by push_cast; linarith
  have := roundHalfEven_le_of_le h10
  have hc : (roundHalfEven (q * 10) : ℚ) ≤ 1000 := by exact_mod_cast this
  linarith

theorem pvariance_nonneg (xs : List ℚ) : 0 ≤ pvariance xs := by
  unfold pvariance
  apply div_nonneg
  · apply List.sum_nonneg
    intro x hx
    rcases List.mem_map.mp hx with ⟨y, _, rfl⟩
    positivity
  · positivity

theorem isqrtFloorQ_eq {r : ℚ} (hr : 0 ≤ r) :
    isqrtFloorQ r = ⌊Real.sqrt ((r : ℝ))⌋₊ := by
  have hdenpos : (0 : ℝ) < (r.den : ℝ) := by exact_mod_cast r.den_pos
  have hrR : (0 : ℝ) ≤ (r : ℝ) := by exact_mod_cast hr
  have hnum : (0 : ℤ) ≤ r.num := Rat.num_nonneg.mpr hr
  have htn : ((r.num.toNat : ℕ) : ℝ) = ((r.num : ℤ) : ℝ) := by
    exact_mod_cast Int.toNat_of_nonneg hnum
  have hN : (((r.num.toNat * r.den : ℕ)) : ℝ) = (r : ℝ) * ((r.den : ℝ)) ^ 2 := by
    push_cast
    rw [htn, Rat.cast_def]
    field_simp
    ring
  have hsq : Real.sqrt ((r : ℝ)) =
      Real.sqrt (((r.num.toNat * r.den : ℕ)) : ℝ) / (r.den : ℝ) := by
    rw [hN, Real.sqrt_mul hrR, Real.sqrt_sq (le_of_lt hdenpos)]
    field_simp
  rw [hsq, Nat.floor_div_nat, Real.nat_floor_real_sqrt_eq_nat_sqrt]
  rfl

theorem floorDivSqrt_eq {a v : ℚ} (hv : 0 < v) :
    floorDivSqrt a v = ⌊(a : ℝ) / Real.sqrt ((v : ℝ))⌋ := by
  have hvR : (0 : ℝ) < (v : ℝ) := by exact_mod_cast hv
  have hsv : (0 : ℝ) < Real.sqrt ((v : ℝ)) := Real.sqrt_pos.mpr hvR
  have hratio : 0 ≤ (a ^ 2 / v : ℚ) := by positivity
  have hy : Real.sqrt (((a ^ 2 / v : ℚ) : ℝ)) = |(a : ℝ)| / Real.sqrt ((v : ℝ)) := by
    push_cast
    rw [Real.sqrt_div (by positivity), Real.sqrt_sq_eq_abs]
  set n := isqrtFloorQ (a ^ 2 / v) with hn
  have hfl : n = ⌊|(a : ℝ)| / Real.sqrt ((v : ℝ))⌋₊ := by
    rw [hn, isqrtFloorQ_eq hratio, hy]
  set y : ℝ := |(a : ℝ)| / Real.sqrt ((v : ℝ)) with hydef
  have hy0 : 0 ≤ y := by positivity
  have hny : (n : ℝ) ≤ y := by rw [hfl]; exact Nat.floor_le hy0
  have hylt : y < (n : ℝ) + 1 := by rw [hfl]; exact Nat.lt_floor_add_one y
  by_cases ha : 0 ≤ a
  · have hax : (a : ℝ) / Real.sqrt ((v : ℝ)) = y := by
      rw [hydef, abs_of_nonneg (by exact_mod_cast ha)]
    rw [hax]
    unfold floorDivSqrt
    rw [if_pos ha, ← hn]
    symm
    rw [Int.floor_eq_iff]
    constructor
    · exact_mod_cast hny
    · exact_mod_cast hylt
  · have haneg : (a : ℝ) < 0 := by exact_mod_cast (lt_of_not_le ha)
    have hax : (a : ℝ) / Real.sqrt ((v : ℝ)) = -y := by
      rw [hydef, abs_of_neg haneg]
      field_simp
    rw [hax]
    unfold floorDivSqrt
    rw [if_neg ha, ← hn]
    by_cases heq : (n : ℚ) ^ 2 * v = a ^ 2
    · have hyn : y = (n : ℝ) := by
        have hvne : ((v : ℚ) : ℝ) ≠ 0 := ne_of_gt hvR
        have hQ : ((a : ℝ)) ^ 2 = ((n : ℝ)) ^ 2 * ((v : ℚ) : ℝ) := by
          exact_mod_cast heq.symm
        have h1 : y ^ 2 = ((n : ℝ)) ^ 2 := by
          rw [hydef, div_pow, sq_abs, Real.sq_sqrt (le_of_lt hvR), hQ]
          field_simp
        have h2 : 0 ≤ (n : ℝ) := by positivity
        nlinarith [sq_nonneg (y - (n : ℝ)), sq_nonneg (y + (n : ℝ))]
      rw [if_pos heq, hyn]
      rw [show -((n : ℕ) : ℝ) = (((-(n : ℤ) : ℤ)) : ℝ) by push_cast; ring]
      rw [Int.floor_intCast]
    · have hyne : y ≠ (n : ℝ) := by
        intro hcontra
        apply heq
        have h2 : ((a : ℝ)) ^ 2 / (v : ℝ) = ((n : ℝ)) ^ 2 := by
          rw [show ((n : ℝ)) ^ 2 = y ^ 2 by rw [hcontra]]
          rw [hydef, div_pow, sq_abs, Real.sq_sqrt (le_of_lt hvR)]
        have h3 : ((n : ℝ)) ^ 2 * (v : ℝ) = ((a : ℝ)) ^ 2 := by
          rw [← h2]
          field_simp
        exact_mod_cast h3
      have hnylt : (n : ℝ) < y := lt_of_le_of_ne hny (fun h => hyne h.symm)
      rw [if_neg heq]
      symm
      rw [Int.floor_eq_iff]
      constructor
      · push_cast
        linarith
      · push_cast
        linarith

theorem cmpDivSqrt_correct {a v : ℚ} (k : ℤ) (hv : 0 < v) :
    (cmpDivSqrt a v k = .lt ↔ (a : ℝ) / Real.sqrt ((v : ℝ)) < (k : ℝ)) ∧
    (cmpDivSqrt a v k = .eq ↔ (a : ℝ) / Real.sqrt ((v : ℝ)) = (k : ℝ)) ∧
    (cmpDivSqrt a v k = .gt ↔ (k : ℝ) < (a : ℝ) / Real.sqrt ((v : ℝ))) := by
  have hvR : (0 : ℝ) < (v : ℝ) := by exact_mod_cast hv
  have hsv : (0 : ℝ) < Real.sqrt ((v : ℝ)) := Real.sqrt_pos.mpr hvR
  set x : ℝ := (a : ℝ) / Real.sqrt ((v : ℝ)) with hx
  have hmul : ∀ z : ℝ, x < z ↔ (a : ℝ) < z * Real.sqrt ((v : ℝ)) := by
    intro z
    rw [hx, div_lt_iff₀ hsv]
  have hmuleq : ∀ z : ℝ, x = z ↔ (a : ℝ) = z * Real.sqrt ((v : ℝ)) := by
    intro z
    rw [hx, div_eq_iff (ne_of_gt hsv)]
  by_cases ha : 0 ≤ a
  · have haR : (0 : ℝ) ≤ (a : ℝ) := by exact_mod_cast ha
    by_cases hk : k < 0
    · have hkx : (k : ℝ) < x := by
        have hkR : (k : ℝ) < 0 := by exact_mod_cast hk
        have hx0 : 0 ≤ x := by positivity
        linarith
      unfold cmpDivSqrt
      rw [if_pos ha, if_pos hk]
      refine ⟨⟨fun h => (nomatch h), fun h => absurd h (not_lt_of_lt hkx)⟩,
              ⟨fun h => (nomatch h), fun h => absurd h (ne_of_gt hkx)⟩,
              ⟨fun _ => hkx, fun _ => rfl⟩⟩
    · have hk0 : (0 : ℤ) ≤ k := le_of_not_lt hk
      have hkR : (0 : ℝ) ≤ (k : ℝ) := by exact_mod_cast hk0
      have hA : ((a : ℝ)) = Real.sqrt (((a ^ 2 : ℚ) : ℝ)) := by
        push_cast
        rw [Real.sqrt_sq haR]
      have hK : (k : ℝ) * Real.sqrt ((v : ℝ)) = Real.sqrt ((((k : ℚ) ^ 2 * v : ℚ) : ℝ)) := by
        push_cast
        rw [Real.sqrt_mul (by positivity), Real.sqrt_sq hkR]
      have hlt : x < (k : ℝ) ↔ (a ^ 2 : ℚ) < ((k : ℚ) ^ 2 * v : ℚ) := by
        rw [hmul, hA, hK, Real.sqrt_lt_sqrt_iff (by positivity)]
        exact ⟨fun h => by exact_mod_cast h, fun h => by exact_mod_cast h⟩
      have heq : x = (k : ℝ) ↔ (a ^ 2 : ℚ) = ((k : ℚ) ^ 2 * v : ℚ) := by
        rw [hmuleq, hA, hK, Real.sqrt_inj (by positivity) (by positivity)]
        exact ⟨fun h => by exact_mod_cast h, fun h => by exact_mod_cast h⟩
      unfold cmpDivSqrt
      rw [if_pos ha, if_neg hk]
      by_cases h1 : (a ^ 2 : ℚ) < ((k : ℚ) ^ 2 * v : ℚ)
      · rw [if_pos h1]
        refine ⟨⟨fun _ => hlt.mpr h1, fun _ => rfl⟩,
                ⟨fun h => (nomatch h), fun h => absurd (heq.mp h) (ne_of_lt h1)⟩,
                ⟨fun h => (nomatch h), fun h => absurd (hlt.mpr h1) (not_lt_of_lt h)⟩⟩
      · by_cases h2 : (a ^ 2 : ℚ) = ((k : ℚ) ^ 2 * v : ℚ)
        · rw [if_neg h1, if_pos h2]
          refine ⟨⟨fun h => (nomatch h), fun h => absurd (heq.mpr h2 ▸ h) (lt_irrefl _)⟩,
                  ⟨fun _ => heq.mpr h2, fun _ => rfl⟩,
                  ⟨fun h => (nomatch h), fun h => absurd (heq.mpr h2 ▸ h) (lt_irrefl _)⟩⟩
        · rw [if_neg h1, if_neg h2]
          have h3 : (k : ℝ) < x := by
            rcases lt_trichotomy x ((k : ℝ)) with hc | hc | hc
            · exact absurd (hlt.mp hc) h1
            · exact absurd (heq.mp hc) h2
            · exact hc
          refine ⟨⟨fun h => (nomatch h), fun h => absurd h (not_lt_of_lt h3)⟩,
                  ⟨fun h => (nomatch h), fun h => absurd h (ne_of_gt h3)⟩,
                  ⟨fun _ => h3, fun _ => rfl⟩⟩
  · have haneg : (a : ℝ) < 0 := by exact_mod_cast (lt_of_not_le ha)
    have hxneg : x < 0 := div_neg_of_neg_of_pos haneg hsv
    by_cases hk : 0 ≤ k
    · have hkx : x < (k : ℝ) := by
        have hkR : (0 : ℝ) ≤ (k : ℝ) := by exact_mod_cast hk
        linarith
      unfold cmpDivSqrt
      rw [if_neg ha, if_pos hk]
      refine ⟨⟨fun _ => hkx, fun _ => rfl⟩,
              ⟨fun h => (nomatch h), fun h => absurd h (ne_of_lt hkx)⟩,
              ⟨fun h => (nomatch h), fun h => absurd h (not_lt_of_lt hkx)⟩⟩
    · have hkneg : k < 0 := lt_of_not_le hk
      have hkRneg : (k : ℝ) < 0 := by exact_mod_cast hkneg
      have hA : -(a : ℝ) = Real.sqrt (((a ^ 2 : ℚ) : ℝ)) := by
        push_cast
        rw [Real.sqrt_sq_eq_abs, abs_of_neg haneg]
      have hK : -((k : ℝ) * Real.sqrt ((v : ℝ))) = Real.sqrt ((((k : ℚ) ^ 2 * v : ℚ) : ℝ)) := by
        push_cast
        rw [Real.sqrt_mul (by positivity), Real.sqrt_sq_eq_abs,
          abs_of_neg hkRneg]
        ring
      have hlt : x < (k : ℝ) ↔ (((k : ℚ) ^ 2 * v : ℚ)) < (a ^ 2 : ℚ) := by
        rw [hmul]
        constructor
        · intro h
          have h' : Real.sqrt ((((k : ℚ) ^ 2 * v : ℚ) : ℝ)) < Real.sqrt (((a ^ 2 : ℚ) : ℝ)) := by
            rw [← hA, ← hK]
            linarith
          have := (Real.sqrt_lt_sqrt_iff (by positivity)).mp h'
          exact_mod_cast this
        · intro h
          have h' : Real.sqrt ((((k : ℚ) ^ 2 * v : ℚ) : ℝ)) < Real.sqrt (((a ^ 2 : ℚ) : ℝ)) := by
            apply Real.sqrt_lt_sqrt (by positivity)
            exact_mod_cast h
          rw [← hA, ← hK] at h'
          linarith
      have heq : x = (k : ℝ) ↔ (((k : ℚ) ^ 2 * v : ℚ)) = (a ^ 2 : ℚ) := by
        rw [hmuleq]
        constructor
        · intro h
          have h' : Real.sqrt ((((k : ℚ) ^ 2 * v : ℚ) : ℝ)) = Real.sqrt (((a ^ 2 : ℚ) : ℝ)) := by
            rw [← hA, ← hK]
            linarith
          have := (Real.sqrt_inj (by positivity) (by positivity)).mp h'
          exact_mod_cast this
        · intro h
          have h' : Real.sqrt ((((k : ℚ) ^ 2 * v : ℚ) : ℝ)) = Real.sqrt (((a ^ 2 : ℚ) : ℝ)) := by
            congr 1
            exact_mod_cast h
          rw [← hA, ← hK] at h'
          linarith
      unfold cmpDivSqrt
      rw [if_neg ha, if_neg hk]
      by_cases h1 : (((k : ℚ) ^ 2 * v : ℚ)) < (a ^ 2 : ℚ)
      · rw [if_pos h1]
        refine ⟨⟨fun _ => hlt.mpr h1, fun _ => rfl⟩,
                ⟨fun h => (nomatch h), fun h => absurd (heq.mp h) (ne_of_lt h1)⟩,
                ⟨fun h => (nomatch h), fun h => absurd (hlt.mpr h1) (not_lt_of_lt h)⟩⟩
      · by_cases h2 : (((k : ℚ) ^ 2 * v : ℚ)) = (a ^ 2 : ℚ)
        · rw [if_neg h1, if_pos h2]
          refine ⟨⟨fun h => (nomatch h), fun h => absurd (heq.mpr h2 ▸ h) (lt_irrefl _)⟩,
                  ⟨fun _ => heq.mpr h2, fun _ => rfl⟩,
                  ⟨fun h => (nomatch h), fun h => absurd (heq.mpr h2 ▸ h) (lt_irrefl _)⟩⟩
        · rw [if_neg h1, if_neg h2]
          have h3 : (k : ℝ) < x := by
            rcases lt_trichotomy x ((k : ℝ)) with hc | hc | hc
            · exact absurd (hlt.mp hc) h1
            · exact absurd (heq.mp hc) h2
            · exact hc
          refine ⟨⟨fun h => (nomatch h), fun h => absurd h (not_lt_of_lt h3)⟩,
                  ⟨fun h => (nomatch h), fun h => absurd h (ne_of_gt h3)⟩,
                  ⟨fun _ => h3, fun _ => rfl⟩⟩

/-- The exactly-computed `roundDivSqrt a v` is the round-half-to-even of the
real number `a / sqrt v`: it is within `1/2` of it, and on exact ties it is
the even neighbour. -/
theorem roundDivSqrt_spec {a v : ℚ} (hv : 0 < v) :
    |(a : ℝ) / Real.sqrt ((v : ℝ)) - (roundDivSqrt a v : ℝ)| ≤ 1 / 2 ∧
    (|(a : ℝ) / Real.sqrt ((v : ℝ)) - (roundDivSqrt a v : ℝ)| = 1 / 2 →
      2 ∣ roundDivSqrt a v) := by
  set x : ℝ := (a : ℝ) / Real.sqrt ((v : ℝ)) with hx
  have hf : floorDivSqrt a v = ⌊x⌋ := floorDivSqrt_eq hv
  have hfle : (floorDivSqrt a v : ℝ) ≤ x := by rw [hf]; exact Int.floor_le x
  have hflt : x < (floorDivSqrt a v : ℝ) + 1 := by rw [hf]; exact Int.lt_floor_add_one x
  have h2x : ((2 * a : ℚ) : ℝ) / Real.sqrt ((v : ℝ)) = 2 * x := by
    rw [hx]
    push_cast
    ring
  obtain ⟨hclt, hceq, hcgt⟩ := cmpDivSqrt_correct (a := 2 * a) (v := v)
    (2 * floorDivSqrt a v + 1) hv
  unfold roundDivSqrt
  rcases hcase : cmpDivSqrt (2 * a) v (2 * floorDivSqrt a v + 1) with _ | _ | _
  all_goals simp only [hcase]
  · -- x < f + 1/2
    have h1 := hclt.mp hcase
    rw [h2x] at h1
    push_cast at h1
    constructor
    · rw [abs_le]
      constructor <;> linarith
    · intro habs
      rw [abs_of_nonneg (by linarith)] at habs
      linarith
  · -- exact tie: x = f + 1/2
    have h1 := hceq.mp hcase
    rw [h2x] at h1
    push_cast at h1
    by_cases hpar : 2 ∣ floorDivSqrt a v
    · rw [if_pos hpar]
      constructor
      · rw [abs_of_nonneg (by linarith)]
        linarith
      · intro _
        exact hpar
    · rw [if_neg hpar]
      constructor
      · rw [abs_of_nonpos (by push_cast; linarith)]
        push_cast
        linarith
      · intro _
        omega
  · -- f + 1/2 < x
    have h1 := hcgt.mp hcase
    rw [h2x] at h1
    push_cast at h1
    constructor
    · rw [abs_le]
      constructor <;> push_cast <;> linarith
    · intro habs
      rw [abs_of_nonpos (by push_cast; linarith)] at habs
      push_cast at habs
      linarith

end MetricsIntegrity

namespace MetricsIntegrity

/-! Support lemmas about lists and counts. -/

theorem length_filter_add_length_filter_not {α : Type} (l : List α) (p : α → Bool) :
    (l.filter p).length + (l.filter (fun a => !p a)).length = l.length := by
  induction l with
  | nil => rfl
  | cons x xs ih =>
    by_cases h : p x <;> simp [List.filter_cons, h] <;> omega

theorem critical_le_not_passed (results : List IntegrityCheckResult) :
    (results.filter (fun r => r.is_critical_failure)).length ≤
      (results.filter (fun r => !r.is_passed)).length := by
  rw [← List.countP_eq_length_filter, ← List.countP_eq_length_filter]
  apply List.countP_mono_left
  intro r _ h
  unfold IntegrityCheckResult.is_critical_failure at h
  exact (Bool.and_eq_true _ _).mp h |>.1

/-- C1: for every accumulated result sequence, the summary returned by
`MetricsIntegrityChecker.get_summary` satisfies `passed + failed =
total_checks`, `0 ≤ overall_pass_rate ≤ 100` (total `0` is replaced by
denominator `1`), `overall_status = "CRITICAL"` iff `critical_failures > 0`,
and `overall_status = "PASS"` iff `failed = 0`. -/
theorem claim_C1_summary_invariants (results : List IntegrityCheckResult) :
    (get_summary results).passed + (get_summary results).failed
        = (get_summary results).total_checks ∧
    0 ≤ (get_summary results).overall_pass_rate ∧
    (get_summary results).overall_pass_rate ≤ 100 ∧
    ((get_summary results).overall_status = "CRITICAL" ↔
      0 < (get_summary results).critical_failures) ∧
    ((get_summary results).overall_status = "PASS" ↔
      (get_summary results).failed = 0) := by
  have hp : (results.filter (fun r => r.is_passed)).length ≤ results.length :=
    List.length_filter_le _ _
  have hcf : (results.filter (fun r => r.is_critical_failure)).length ≤
      (results.filter (fun r => !r.is_passed)).length :=
    critical_le_not_passed results
  have hsplit := length_filter_add_length_filter_not results (fun r => r.is_passed)
  simp only [get_summary]
  refine ⟨by omega, ?_, ?_, ?_, ?_⟩
  · apply round1_nonneg
    positivity
  · apply round1_le_100
    have hm : (0 : ℚ) < ((max results.length 1 : ℕ) : ℚ) := by
      have : (1 : ℕ) ≤ max results.length 1 := le_max_right _ _
      exact_mod_cast lt_of_lt_of_le Nat.zero_lt_one this
    rw [div_mul_eq_mul_div, div_le_iff₀ hm]
    have hple : ((results.filter (fun r => r.is_passed)).length : ℚ)
        ≤ ((max results.length 1 : ℕ) : ℚ) := by
      have : (results.filter (fun r => r.is_passed)).length ≤ max results.length 1 := by
        omega
      exact_mod_cast this
    nlinarith
  · by_cases hfail : results.length - (results.filter (fun r => r.is_passed)).length = 0
    · rw [if_pos hfail]
      constructor
      · intro h
        exact absurd h (by decide)
      · intro h
        omega
    · rw [if_neg hfail]
      by_cases hcrit : 0 < (results.filter (fun r => r.is_critical_failure)).length
      · rw [if_pos hcrit]
        exact ⟨fun _ => hcrit, fun _ => rfl⟩
      · rw [if_neg hcrit]
        exact ⟨fun h => absurd h (by decide), fun h => absurd h hcrit⟩
  · by_cases hfail : results.length - (results.filter (fun r => r.is_passed)).length = 0
    · rw [if_pos hfail]
      exact ⟨fun _ => hfail, fun _ => rfl⟩
    · rw [if_neg hfail]
      by_cases hcrit : 0 < (results.filter (fun r => r.is_critical_failure)).length
      · rw [if_pos hcrit]
        exact ⟨fun h => absurd h (by decide), fun h => absurd h hfail⟩
      · rw [if_neg hcrit]
        exact ⟨fun h => absurd h (by decide), fun h => absurd h hfail⟩

end MetricsIntegrity

namespace MetricsIntegrity

theorem roundDivSqrt_zero {v : ℚ} (hv : 0 < v) : roundDivSqrt 0 v = 0 := by
  have hfloor : floorDivSqrt 0 v = 0 := by
    unfold floorDivSqrt
    rw [if_pos (le_refl (0 : ℚ))]
    rw [show ((0 : ℚ) ^ 2 / v) = 0 by norm_num]
    simp [isqrtFloorQ]
  have hcmp : cmpDivSqrt (2 * 0) v ((2 : ℤ) * 0 + 1) = .lt := by
    unfold cmpDivSqrt
    rw [if_pos (by norm_num : (0 : ℚ) ≤ 2 * 0)]
    rw [if_neg (by norm_num : ¬ ((2 : ℤ) * 0 + 1 < 0))]
    rw [if_pos]
    push_cast
    nlinarith
  unfold roundDivSqrt
  rw [hfloor]
  simp only [hcmp]

/-- C4: `calc_z_score` returns the absence marker when the population has
fewer than 2 elements; returns exactly `0.0` when the population standard
deviation is `0` (equivalently `pvariance = 0`); otherwise returns
`(value - mean) / pstdev` rounded half-to-even to 3 decimals (the returned
rational is `n / 1000` where `n` is within `1/2` of
`1000 * (value - mean) / sqrt pvariance` and even on exact ties); and the
z-score of the population mean is exactly `0.0`. -/
theorem claim_C4_z_score (value : ℚ) (xs : List ℚ) :
    (xs.length < 2 → calc_z_score value xs = none) ∧
    (2 ≤ xs.length → Real.sqrt (((pvariance xs : ℚ) : ℝ)) = 0 →
      calc_z_score value xs = some 0) ∧
    (2 ≤ xs.length → Real.sqrt (((pvariance xs : ℚ) : ℝ)) ≠ 0 →
      ∃ n : ℤ, calc_z_score value xs = some ((n : ℚ) / 1000) ∧
        |1000 * (((value : ℝ) - ((pmean xs : ℚ) : ℝ))
            / Real.sqrt (((pvariance xs : ℚ) : ℝ))) - (n : ℝ)| ≤ 1 / 2 ∧
        (|1000 * (((value : ℝ) - ((pmean xs : ℚ) : ℝ))
            / Real.sqrt (((pvariance xs : ℚ) : ℝ))) - (n : ℝ)| = 1 / 2 → 2 ∣ n)) ∧
    (2 ≤ xs.length → calc_z_score (pmean xs) xs = some 0) := by
  have hvar_of_sqrt : Real.sqrt (((pvariance xs : ℚ) : ℝ)) = 0 ↔ pvariance xs = 0 := by
    rw [Real.sqrt_eq_zero (by exact_mod_cast pvariance_nonneg xs)]
    constructor
    · intro h
      exact_mod_cast h
    · intro h
      exact_mod_cast h
  refine ⟨?_, ?_, ?_, ?_⟩
  · intro h
    unfold calc_z_score
    rw [if_pos h]
  · intro h hsd
    have hvar := hvar_of_sqrt.mp hsd
    unfold calc_z_score
    rw [if_neg (by omega), if_pos hvar]
  · intro h hsd
    have hvar : pvariance xs ≠ 0 := fun hc => hsd (hvar_of_sqrt.mpr hc)
    have hpos : 0 < pvariance xs := lt_of_le_of_ne (pvariance_nonneg xs) (Ne.symm hvar)
    refine ⟨roundDivSqrt (1000 * (value - pmean xs)) (pvariance xs), ?_, ?_, ?_⟩
    · unfold calc_z_score
      rw [if_neg (by omega), if_neg hvar]
    · have hspec := (roundDivSqrt_spec (a := 1000 * (value - pmean xs)) hpos).1
      have hcast : ((1000 * (value - pmean xs) : ℚ) : ℝ)
          = 1000 * (((value : ℝ) - ((pmean xs : ℚ) : ℝ))) := by
        push_cast
        ring
      rw [hcast, mul_div_assoc] at hspec
      exact hspec
    · have hspec := (roundDivSqrt_spec (a := 1000 * (value - pmean xs)) hpos).2
      have hcast : ((1000 * (value - pmean xs) : ℚ) : ℝ)
          = 1000 * (((value : ℝ) - ((pmean xs : ℚ) : ℝ))) := by
        push_cast
        ring
      rw [hcast, mul_div_assoc] at hspec
      exact hspec
  · intro h
    by_cases hvar : pvariance xs = 0
    · unfold calc_z_score
      rw [if_neg (by omega), if_pos hvar]
    · have hpos : 0 < pvariance xs := lt_of_le_of_ne (pvariance_nonneg xs) (Ne.symm hvar)
      unfold calc_z_score
      rw [if_neg (by omega), if_neg hvar]
      rw [show (1000 * (pmean xs - pmean xs) : ℚ) = 0 by ring]
      rw [roundDivSqrt_zero hpos]
      norm_num

/-- Witness for C4 at concrete inputs: a 1-element population gives `none`, a
constant population gives `0.0`, and the z-score of the mean of
`[10, 20, 30, 40, 50]` is `0.0`. -/
theorem claim_C4_z_score_witness :
    calc_z_score 10 [7] = none ∧ calc_z_score 5 [5, 5, 5, 5] = some 0 ∧
    calc_z_score 30 [10, 20, 30, 40, 50] = some 0 := by
  refine ⟨(claim_C4_z_score 10 [7]).1 (by decide),
          (claim_C4_z_score 5 [5, 5, 5, 5]).2.1 (by decide)
            (by rw [show pvariance [5, 5, 5, 5] = 0 by norm_num [pvariance, pmean]]
                norm_num), ?_⟩
  have h := (claim_C4_z_score 30 [10, 20, 30, 40, 50]).2.2.2 (by decide)
  have hm : pmean [10, 20, 30, 40, 50] = (30 : ℚ) := by norm_num [pmean]
  rw [hm] at h
  exact h

end MetricsIntegrity

namespace MetricsIntegrity

theorem pmean_replicate {w : ℕ} (hw : 1 ≤ w) (c : ℚ) :
    pmean (List.replicate w c) = c := by
  unfold pmean
  rw [List.sum_replicate, List.length_replicate, nsmul_eq_mul]
  have hwQ : ((w : ℕ) : ℚ) ≠ 0 := by
    exact_mod_cast Nat.pos_iff_ne_zero.mp hw
  field_simp

theorem pvariance_replicate (w : ℕ) (c : ℚ) :
    pvariance (List.replicate w c) = 0 := by
  unfold pvariance
  rcases Nat.eq_zero_or_pos w with hw | hw
  · subst hw
    simp
  · rw [List.map_replicate, pmean_replicate hw]
    simp

/-- The break condition of `isTrendBreakAt` is extensionally
`threshold_sigma * (pstdev or 1.0) < |values[i] - moving_mean|` with
`pstdev = Real.sqrt pvariance`. -/
theorem isTrendBreakAt_iff (values : List ℚ) (w : ℕ) (σ : ℚ) (i : ℕ) :
    isTrendBreakAt values w σ i = true ↔
      (σ : ℝ) * (if pvariance (windowAt values w i) = 0 then (1 : ℝ)
          else Real.sqrt (((pvariance (windowAt values w i) : ℚ) : ℝ)))
        < |((values.getD i 0 : ℚ) : ℝ) - ((pmean (windowAt values w i) : ℚ) : ℝ)| := by
  unfold isTrendBreakAt
  by_cases hvar : pvariance (windowAt values w i) = 0
  · rw [if_pos hvar, if_pos hvar]
    simp only [decide_eq_true_eq, mul_one]
    constructor
    · intro h
      exact_mod_cast h
    · intro h
      exact_mod_cast h
  · rw [if_neg hvar, if_neg hvar]
    have hpos : 0 < pvariance (windowAt values w i) :=
      lt_of_le_of_ne (pvariance_nonneg _) (Ne.symm hvar)
    have hposR : (0 : ℝ) < ((pvariance (windowAt values w i) : ℚ) : ℝ) := by
      exact_mod_cast hpos
    have hs : (0 : ℝ) < Real.sqrt (((pvariance (windowAt values w i) : ℚ) : ℝ)) :=
      Real.sqrt_pos.mpr hposR
    by_cases hσ : σ < 0
    · rw [if_pos hσ]
      have hσR : ((σ : ℚ) : ℝ) < 0 := by exact_mod_cast hσ
      have hlt : (σ : ℝ) * Real.sqrt (((pvariance (windowAt values w i) : ℚ) : ℝ))
          < 0 := mul_neg_of_neg_of_pos hσR hs
      exact ⟨fun _ => lt_of_lt_of_le hlt (abs_nonneg _), fun _ => rfl⟩
    · rw [if_neg hσ]
      simp only [decide_eq_true_eq]
      have hσ0 : (0 : ℝ) ≤ (σ : ℝ) := by
        exact_mod_cast le_of_not_lt hσ
      have e1 : (σ : ℝ) * Real.sqrt (((pvariance (windowAt values w i) : ℚ) : ℝ))
          = Real.sqrt (((σ : ℝ)) ^ 2 * ((pvariance (windowAt values w i) : ℚ) : ℝ)) := by
        rw [Real.sqrt_mul (by positivity), Real.sqrt_sq hσ0]
      have e2 : |((values.getD i 0 : ℚ) : ℝ) - ((pmean (windowAt values w i) : ℚ) : ℝ)|
          = Real.sqrt ((((values.getD i 0 : ℚ) : ℝ)
              - ((pmean (windowAt values w i) : ℚ) : ℝ)) ^ 2) :=
        (Real.sqrt_sq_eq_abs _).symm
      rw [e1, e2]
      rw [Real.sqrt_lt_sqrt_iff (by positivity)]
      constructor
      · intro h
        exact_mod_cast h
      · intro h
        exact_mod_cast h

/-- C5 (amended): `detect_trend_break` returns `[]` when
`len(values) < window + 1`; its output is strictly ascending; membership is
exactly the indices `i ≥ window` with
`|values[i] - mean(window)| > threshold_sigma * (pstdev(window) or 1.0)`;
for `threshold_sigma ≥ 0` and `window ≥ 1` every constant sequence of length
at least `window + 1` yields no breaks; and the spec example
`[100, 102, 101, 103, 100, 300, 101, 99]` with `window=3`,
`threshold_sigma=2.0` flags index 5. -/
theorem claim_C5_trend_break (values : List ℚ) (window : ℕ) (threshold_sigma : ℚ) :
    (values.length < window + 1 →
      detect_trend_break values window threshold_sigma = []) ∧
    (detect_trend_break values window threshold_sigma).Pairwise (fun a b => a < b) ∧
    (∀ i : ℕ, i ∈ detect_trend_break values window threshold_sigma ↔
      (window + 1 ≤ values.length ∧ window ≤ i ∧ i < values.length ∧
        (threshold_sigma : ℝ) * (if pvariance (windowAt values window i) = 0 then (1 : ℝ)
            else Real.sqrt (((pvariance (windowAt values window i) : ℚ) : ℝ)))
          < |((values.getD i 0 : ℚ) : ℝ)
              - ((pmean (windowAt values window i) : ℚ) : ℝ)|)) ∧
    (0 ≤ threshold_sigma → 1 ≤ window → ∀ (c : ℚ) (n : ℕ), window + 1 ≤ n →
      detect_trend_break (List.replicate n c) window threshold_sigma = []) ∧
    5 ∈ detect_trend_break [100, 102, 101, 103, 100, 300, 101, 99] 3 2 := by
  refine ⟨?_, ?_, ?_, ?_, ?_⟩
  · intro h
    unfold detect_trend_break
    rw [if_pos h]
  · unfold detect_trend_break
    split
    · exact List.Pairwise.nil
    · exact List.Pairwise.filter _ (List.pairwise_lt_range' _ _ 1)
  · intro i
    unfold detect_trend_break
    split
    · rename_i h
      simp only [List.not_mem_nil, false_iff]
      intro hcon
      omega
    · rename_i h
      rw [List.mem_filter, List.mem_range'_1, isTrendBreakAt_iff]
      constructor
      · rintro ⟨⟨h1, h2⟩, h3⟩
        exact ⟨by omega, h1, by omega, h3⟩
      · rintro ⟨h0, h1, h2, h3⟩
        exact ⟨⟨h1, by omega⟩, h3⟩
  · intro hσ hw c n hn
    rw [List.eq_nil_iff_forall_not_mem]
    intro i hi
    unfold detect_trend_break at hi
    rw [if_neg (by simp [List.length_replicate]; omega)] at hi
    rw [List.mem_filter, List.mem_range'_1] at hi
    obtain ⟨⟨hwi, hilt⟩, hcond⟩ := hi
    rw [List.length_replicate] at hilt
    have hin : i < n := by omega
    have hwin : windowAt (List.replicate n c) window i = List.replicate window c := by
      unfold windowAt
      rw [List.drop_replicate, List.take_replicate]
      congr 1
      omega
    rw [isTrendBreakAt_iff, hwin, pvariance_replicate, pmean_replicate hw] at hcond
    rw [if_pos rfl] at hcond
    have hget : (List.replicate n c).getD i 0 = c := by
      rw [List.getD_eq_getElem?_getD, List.getElem?_replicate]
      rw [if_pos hin]
      rfl
    rw [hget] at hcond
    simp only [sub_self, abs_zero, mul_one] at hcond
    have : (0 : ℝ) ≤ (threshold_sigma : ℝ) := by exact_mod_cast hσ
    linarith
  · have hlen : ([100, 102, 101, 103, 100, 300, 101, 99] : List ℚ).length = 8 := rfl
    unfold detect_trend_break
    rw [if_neg (by rw [hlen]; omega)]
    apply List.mem_filter.mpr
    constructor
    · rw [hlen]
      decide
    · have hwin : windowAt [100, 102, 101, 103, 100, 300, 101, 99] 3 5
          = [101, 103, 100] := rfl
      unfold isTrendBreakAt
      rw [hwin]
      have hmean : pmean [101, 103, 100] = 304 / 3 := by
        norm_num [pmean]
      have hvar : pvariance [101, 103, 100] = 14 / 9 := by
        norm_num [pvariance, pmean]
      rw [hvar, hmean]
      rw [if_neg (by norm_num)]
      rw [if_neg (by norm_num)]
      rw [show ([100, 102, 101, 103, 100, 300, 101, 99] : List ℚ).getD 5 0
          = (300 : ℚ) from rfl]
      rw [decide_eq_true_eq]
      norm_num

end MetricsIntegrity

namespace MetricsIntegrity

/-- Counterexample to C5 as stated: for a negative `threshold_sigma` the
constant-sequence clause fails — `[5, 5, 5, 5]` has length `window + 1 = 4`
yet the detector flags index 3, because `0 > sigma * 1.0` holds for
`sigma = -1` on a flat window. -/
theorem claim_C5_trend_break_counterexample :
    3 + 1 ≤ (List.replicate 4 (5 : ℚ)).length ∧
    detect_trend_break (List.replicate 4 (5 : ℚ)) 3 (-1) = [3] := by
  constructor
  · simp
  · rw [show List.replicate 4 (5 : ℚ) = [5, 5, 5, 5] from rfl]
    unfold detect_trend_break
    rw [if_neg (by norm_num)]
    rw [show ([5, 5, 5, 5] : List ℚ).length - 3 = 1 from rfl]
    rw [show List.range' 3 1 = [3] from rfl]
    have hcond : isTrendBreakAt [5, 5, 5, 5] 3 (-1) 3 = true := by
      unfold isTrendBreakAt
      rw [show windowAt [5, 5, 5, 5] 3 3 = [5, 5, 5] from rfl]
      rw [show pvariance [5, 5, 5] = 0 from by norm_num [pvariance, pmean]]
      rw [if_pos rfl]
      rw [show ([5, 5, 5, 5] : List ℚ).getD 3 0 = 5 from rfl]
      rw [show pmean [5, 5, 5] = 5 from by norm_num [pmean]]
      norm_num
    simp [hcond]

/-- Witness for C5 at a concrete input: a constant sequence with
`threshold_sigma = 2 ≥ 0` and `window = 3 ≥ 1` yields no breaks. -/
theorem claim_C5_trend_break_witness :
    detect_trend_break (List.replicate 5 (7 : ℚ)) 3 2 = [] :=
  (claim_C5_trend_break [] 3 2).2.2.2.1 (by norm_num) (by norm_num) 7 5 (by norm_num)

/-- C8: `calc_iqr_bounds` sorts the values, takes Q1 and Q3 at the positional
indices `n / 4` and `(3 * n) / 4` of the sorted list (not interpolated), and
returns `(Q1 - 1.5 * IQR, Q3 + 1.5 * IQR)`; for the integer sequence
`1..100` the lower bound is strictly below 1 and the upper bound strictly
above 100. -/
theorem claim_C8_iqr_bounds (values s : List ℚ) :
    (values ≠ [] → s.Perm values → s.Sorted (· ≤ ·) →
      calc_iqr_bounds values =
        (s.getD (values.length / 4) 0
            - 1.5 * (s.getD ((3 * values.length) / 4) 0
                - s.getD (values.length / 4) 0),
         s.getD ((3 * values.length) / 4) 0
            + 1.5 * (s.getD ((3 * values.length) / 4) 0
                - s.getD (values.length / 4) 0))) ∧
    ((calc_iqr_bounds ((List.range 100).map (fun k : ℕ => ((k : ℚ) + 1)))).1 < 1 ∧
      100 < (calc_iqr_bounds ((List.range 100).map (fun k : ℕ => ((k : ℚ) + 1)))).2) := by
  constructor
  · intro _ hperm hsort
    have hs : s = values.insertionSort (· ≤ ·) :=
      List.eq_of_perm_of_sorted
        (hperm.trans (List.perm_insertionSort _ _).symm) hsort
        (List.sorted_insertionSort _ _)
    rw [hs]
    rfl
  · have hsorted : ((List.range 100).map (fun k : ℕ => ((k : ℚ) + 1))).Sorted (· ≤ ·) := by
      rw [List.Sorted, List.pairwise_map]
      apply List.Pairwise.imp ?_ (List.pairwise_lt_range 100)
      intro a b hab
      have : (a : ℚ) < (b : ℚ) := by exact_mod_cast hab
      linarith
    have hEq : ((List.range 100).map (fun k : ℕ => ((k : ℚ) + 1))).insertionSort (· ≤ ·)
        = (List.range 100).map (fun k : ℕ => ((k : ℚ) + 1)) :=
      List.eq_of_perm_of_sorted (List.perm_insertionSort _ _)
        (List.sorted_insertionSort _ _) hsorted
    have hlen : ((List.range 100).map (fun k : ℕ => ((k : ℚ) + 1))).length = 100 := by
      simp
    have hget : ∀ i : ℕ, i < 100 →
        ((List.range 100).map (fun k : ℕ => ((k : ℚ) + 1))).getD i 0 = (i : ℚ) + 1 := by
      intro i hi
      rw [List.getD_eq_getElem?_getD, List.getElem?_map, List.getElem?_range hi]
      rfl
    unfold calc_iqr_bounds
    rw [hEq, hlen]
    rw [show (100 : ℕ) / 4 = 25 from rfl, show (3 * 100 : ℕ) / 4 = 75 from rfl]
    rw [hget 25 (by norm_num), hget 75 (by norm_num)]
    norm_num

/-- Witness for C8 at a concrete input: `[3, 1, 2]` sorts to `[1, 2, 3]`,
Q1 is at index 0, Q3 at index 2, and the fences are `(-2, 6)`. -/
theorem claim_C8_iqr_bounds_witness : calc_iqr_bounds [3, 1, 2] = (-2, 6) := by
  have h := (claim_C8_iqr_bounds [3, 1, 2] [1, 2, 3]).1 (by decide) (by decide)
    (by decide)
  rw [h]
  norm_num [List.getD]

end MetricsIntegrity

namespace MetricsIntegrity

theorem roundHalfEven_intCast (z : ℤ) : roundHalfEven ((z : ℚ)) = z := by
  unfold roundHalfEven
  simp only [Int.floor_intCast, sub_self]
  rw [if_pos (by norm_num : (0 : ℚ) < 1/2)]

/-- C6: in `check_formula_mom`, a row with a missing growth rate, a missing
prior amount (both fields), a missing current amount, or a growth rate of
exactly zero contributes no result; and the concrete row
`current=110, prior=100, rate=10.0` yields exactly one result whose
reverse-computed prior is `100` with status PASS. -/
theorem claim_C6_formula_mom (tol : ℚ) (sev : String) (row : GrowthRow)
    (pre post : List GrowthRow) :
    ((row.mom_growth_rate = none ∨
        (row.prev_month_amount = none ∧ row.previous_amount = none) ∨
        row.current_amount = none ∨ row.mom_growth_rate = some 0) →
      check_formula_mom (pre ++ row :: post) tol sev
        = check_formula_mom (pre ++ post) tol sev) ∧
    ((check_formula_mom [⟨some ("2025-12"), some ("A"), some 110, some 100,
        none, none, some 10, none⟩] 10 "WARNING").length = 1 ∧
      ((check_formula_mom [⟨some ("2025-12"), some ("A"), some 110, some 100,
          none, none, some 10, none⟩] 10 "WARNING").headD default).actual_value
        = 100 ∧
      ((check_formula_mom [⟨some ("2025-12"), some ("A"), some 110, some 100,
          none, none, some 10, none⟩] 10 "WARNING").headD default).status
        = "PASS") := by
  constructor
  · intro h
    have hnone : momTriple row = none := by
      unfold momTriple
      rcases h with h | ⟨h1, h2⟩ | h | h
      · rw [h]
      · have horf : orFalsy row.prev_month_amount row.previous_amount = none := by
          rw [h1, h2]
          rfl
        rw [horf]
        cases row.mom_growth_rate <;> rfl
      · rw [h]
        cases row.mom_growth_rate <;>
          cases orFalsy row.prev_month_amount row.previous_amount <;> rfl
      · rw [h]
        cases orFalsy row.prev_month_amount row.previous_amount <;>
          cases row.current_amount <;> simp
    unfold check_formula_mom
    rw [List.filterMap_append, List.filterMap_append, List.filterMap_cons, hnone]
    rfl
  · have ht : momTriple (⟨some ("2025-12"), some ("A"), some 110, some 100,
        none, none, some 10, none⟩ : GrowthRow) = some (10, 100, 110) := by
      unfold momTriple orFalsy
      norm_num
    have hrev : reverseCalc 10 110 = 100 := by
      unfold reverseCalc
      rw [show (110 : ℚ) / (1 + 10 / 100) = ((100 : ℤ) : ℚ) by norm_num]
      rw [roundHalfEven_intCast]
      norm_num
    have hlist : check_formula_mom [⟨some ("2025-12"), some ("A"), some 110,
        some 100, none, none, some 10, none⟩] 10 "WARNING"
        = [mkMomResult 10 "WARNING" (⟨some ("2025-12"), some ("A"), some 110,
          some 100, none, none, some 10, none⟩ : GrowthRow) (10, 100, 110)] := by
      unfold check_formula_mom
      rw [List.filterMap_cons, ht]
      rfl
    rw [hlist]
    refine ⟨rfl, ?_, ?_⟩
    · show (mkMomResult 10 "WARNING" _ (10, 100, 110)).actual_value = 100
      unfold mkMomResult
      exact hrev
    · show (mkMomResult 10 "WARNING" _ (10, 100, 110)).status = "PASS"
      unfold mkMomResult
      rw [hrev]
      norm_num

/-- Witness for C6 at a concrete input: a row with `rate = None` contributes
zero results. -/
theorem claim_C6_formula_mom_witness :
    check_formula_mom [⟨some ("2025-01"), some ("A"), some 100, none, none,
      none, none, none⟩] 10 "WARNING" = [] :=
  (claim_C6_formula_mom 10 "WARNING" ⟨some ("2025-01"), some ("A"), some 100,
    none, none, none, none, none⟩ [] []).1 (Or.inl rfl)

/-- C9: in `check_formula_mom`, a row whose `prev_month_amount` is present but
equal to `0` (with no `previous_amount` fallback) is skipped even when the
growth rate and current amount are present, because Python's `or` treats the
falsy `0` like a missing value. -/
theorem claim_C9_zero_prior_skipped (tol : ℚ) (sev : String) (row : GrowthRow)
    (pre post : List GrowthRow) (m c : ℚ) :
    row.prev_month_amount = some 0 → row.previous_amount = none →
    row.mom_growth_rate = some m → row.current_amount = some c →
    check_formula_mom (pre ++ row :: post) tol sev
      = check_formula_mom (pre ++ post) tol sev := by
  intro h1 h2 h3 h4
  have hnone : momTriple row = none := by
    unfold momTriple
    have horf : orFalsy row.prev_month_amount row.previous_amount = none := by
      rw [h1, h2]
      simp [orFalsy]
    rw [horf, h3, h4]
  unfold check_formula_mom
  rw [List.filterMap_append, List.filterMap_append, List.filterMap_cons, hnone]
  rfl

/-- Witness for C9 at a concrete input: `prev_month_amount = 0` with rate and
current present still contributes no result. -/
theorem claim_C9_zero_prior_skipped_witness :
    check_formula_mom [⟨some ("2025-02"), some ("B"), some 120, some 0, none,
      none, some 5, none⟩] 10 "WARNING" = [] :=
  claim_C9_zero_prior_skipped 10 "WARNING" ⟨some ("2025-02"), some ("B"),
    some 120, some 0, none, none, some 5, none⟩ [] [] 5 120 rfl rfl rfl rfl

end MetricsIntegrity

namespace MetricsIntegrity

theorem mem_firstOccur {a : String} : ∀ {l : List String}, a ∈ firstOccur l ↔ a ∈ l := by
  intro l
  induction l with
  | nil => simp [firstOccur]
  | cons x xs ih =>
    rw [firstOccur]
    by_cases hax : a = x
    · subst hax
      simp
    · simp only [List.mem_cons, List.mem_filter, decide_eq_true_eq]
      constructor
      · rintro (h | ⟨h, _⟩)
        · exact Or.inl h
        · exact Or.inr (ih.mp h)
      · rintro (h | h)
        · exact Or.inl h
        · exact Or.inr ⟨ih.mpr h, hax⟩

theorem nodup_firstOccur (l : List String) : (firstOccur l).Nodup := by
  induction l with
  | nil => simp [firstOccur]
  | cons x xs ih =>
    rw [firstOccur]
    apply List.Nodup.cons
    · intro hmem
      rw [List.mem_filter] at hmem
      have := hmem.2
      simp at this
    · exact ih.filter _

theorem sum_filter_add_sum_filter_not {α : Type} (l : List α) (p : α → Bool)
    (f : α → ℚ) :
    ((l.filter p).map f).sum + ((l.filter (fun a => !p a)).map f).sum
      = (l.map f).sum := by
  induction l with
  | nil => simp
  | cons x xs ih =>
    by_cases h : p x <;> simp [List.filter_cons, h] <;> linarith [ih]

theorem partition_sum {α : Type} (C : List String) (f : α → ℚ) (key : α → String) :
    ∀ (L : List α), C.Nodup → (∀ r ∈ L, key r ∈ C) →
    (C.map (fun c => ((L.filter (fun r => key r == c)).map f).sum)).sum
      = (L.map f).sum := by
  induction C with
  | nil =>
    intro L _ hcover
    have hL : L = [] := by
      rw [List.eq_nil_iff_forall_not_mem]
      intro a ha
      exact absurd (hcover a ha) (List.not_mem_nil _)
    subst hL
    simp
  | cons c C' ih =>
    intro L hnodup hcover
    rw [List.nodup_cons] at hnodup
    obtain ⟨hcC, hC'⟩ := hnodup
    rw [List.map_cons, List.sum_cons]
    have hrest : (C'.map (fun c' => ((L.filter (fun r => key r == c')).map f).sum)).sum
        = ((C'.map (fun c' => (((L.filter (fun r => !(key r == c))).filter
            (fun r => key r == c')).map f).sum))).sum := by
      apply congrArg
      apply List.map_congr_left
      intro c' hc'
      have hcc' : c ≠ c' := fun h => hcC (h ▸ hc')
      congr 1
      apply congrArg
      rw [List.filter_filter]
      apply List.filter_congr
      intro r _
      by_cases hk : key r == c'
      · have hkeq : key r = c' := by simpa using hk
        have : (key r == c) = false := by
          simp [hkeq]
          exact fun hcon => hcc' hcon.symm
        simp [hk, this]
      · simp [hk]
    rw [hrest]
    rw [ih (L.filter (fun r => !(key r == c))) hC' ?_]
    · exact sum_filter_add_sum_filter_not L (fun r => key r == c) f
    · intro r hr
      rw [List.mem_filter] at hr
      have hkey := hcover r hr.1
      have hne : ¬ (key r == c) := by
        simpa using hr.2
      rw [List.mem_cons] at hkey
      rcases hkey with h | h
      · exact absurd (by simp [h]) hne
      · exact h

theorem sumByCompany_eq_sumTotal (data : List UsageRow) (ym : String) :
    sumByCompany data ym = sumTotal data ym := by
  unfold sumByCompany sumTotal sumCompanies
  have hsplit : ∀ c : String,
      data.filter (fun r => r.ym == ym && r.company == c)
        = (data.filter (fun r => r.ym == ym)).filter (fun r => r.company == c) := by
    intro c
    rw [List.filter_filter]
    apply List.filter_congr
    intro r _
    rw [Bool.and_comm]
  have hmaps : ((firstOccur ((data.filter (fun r => r.ym == ym)).map UsageRow.company)).map
      (fun c => ((data.filter (fun r => r.ym == ym && r.company == c)).map
        UsageRow.amount).sum))
      = ((firstOccur ((data.filter (fun r => r.ym == ym)).map UsageRow.company)).map
      (fun c => (((data.filter (fun r => r.ym == ym)).filter
          (fun r => r.company == c)).map UsageRow.amount).sum)) := by
    apply List.map_congr_left
    intro c _
    rw [hsplit c]
  rw [hmaps]
  apply partition_sum
  · exact nodup_firstOccur _
  · intro r hr
    rw [mem_firstOccur]
    exact List.mem_map.mpr ⟨r, hr, rfl⟩

theorem sumDiffRaw_eq_zero (data : List UsageRow) (ym : String) :
    sumDiffRaw data ym = 0 := by
  unfold sumDiffRaw
  rw [sumByCompany_eq_sumTotal, sub_self, abs_zero]

/-- C7: the per-period difference of the sum-integrity check is invariant
under any permutation of the input rows, and under splitting one row into two
rows of the same period and company whose amounts sum to the original (in
exact arithmetic the grand total and the per-company re-summation always
agree, so the difference is `0` on both sides). -/
theorem claim_C7_sum_invariance :
    (∀ (data data' : List UsageRow), data.Perm data' → ∀ ym : String,
      sumDiffRaw data ym = sumDiffRaw data' ym) ∧
    (∀ (pre post : List UsageRow) (r r1 r2 : UsageRow),
      r1.ym = r.ym → r2.ym = r.ym → r1.company = r.company →
      r2.company = r.company → r1.amount + r2.amount = r.amount →
      ∀ ym : String, sumDiffRaw (pre ++ r :: post) ym
        = sumDiffRaw (pre ++ r1 :: r2 :: post) ym) := by
  constructor
  · intro data data' _ ym
    rw [sumDiffRaw_eq_zero, sumDiffRaw_eq_zero]
  · intro pre post r r1 r2 _ _ _ _ _ ym
    rw [sumDiffRaw_eq_zero, sumDiffRaw_eq_zero]

/-- Witness for C7 at concrete inputs: swapping two rows and splitting a row
into two compensating rows both leave the period difference unchanged. -/
theorem claim_C7_sum_invariance_witness :
    sumDiffRaw [⟨some ("2025-01"), some ("A"), some 3⟩,
        ⟨some ("2025-01"), some ("B"), some 4⟩] ("2025-01")
      = sumDiffRaw [⟨some ("2025-01"), some ("B"), some 4⟩,
        ⟨some ("2025-01"), some ("A"), some 3⟩] ("2025-01") ∧
    sumDiffRaw ([] ++ (⟨some ("2025-01"), some ("A"), some 3⟩ : UsageRow) :: [])
        ("2025-01")
      = sumDiffRaw ([] ++ (⟨some ("2025-01"), some ("A"), some 1⟩ : UsageRow) ::
          (⟨some ("2025-01"), some ("A"), some 2⟩ : UsageRow) :: []) ("2025-01") := by
  constructor
  · exact claim_C7_sum_invariance.1 _ _ (List.Perm.swap _ _ _) ("2025-01")
  · exact claim_C7_sum_invariance.2 [] []
      ⟨some ("2025-01"), some ("A"), some 3⟩
      ⟨some ("2025-01"), some ("A"), some 1⟩
      ⟨some ("2025-01"), some ("A"), some 2⟩
      rfl rfl rfl rfl (by norm_num [UsageRow.amount]) ("2025-01")

end MetricsIntegrity

namespace MetricsIntegrity

/-- C10: in `check_continuity`, an entity whose rows contain fewer than two
distinct period strings produces no result at all: its loop body yields
`none`, every result in the returned list comes from an entity with at least
two distinct periods, and the same holds inside any accumulated sequence the
returned list is appended to. -/
theorem claim_C10_continuity_skips (data : List MonthRow) (maxMissing : ℚ)
    (sev : String) :
    (∀ c : String, (monthsOf data c).length < 2 →
      continuityFor data maxMissing sev c = none) ∧
    (∀ r ∈ check_continuity data maxMissing sev, ∃ c : String,
      c ∈ contCompanies data ∧ 2 ≤ (monthsOf data c).length ∧
      continuityFor data maxMissing sev c = some r) ∧
    (∀ (st : List IntegrityCheckResult) (r : IntegrityCheckResult),
      r ∈ st ++ check_continuity data maxMissing sev →
      r ∈ st ∨ ∃ c : String, c ∈ contCompanies data ∧
        2 ≤ (monthsOf data c).length ∧
        continuityFor data maxMissing sev c = some r) := by
  have h1 : ∀ c : String, (monthsOf data c).length < 2 →
      continuityFor data maxMissing sev c = none := by
    intro c h
    unfold continuityFor
    rw [if_pos h]
  have h2 : ∀ r ∈ check_continuity data maxMissing sev, ∃ c : String,
      c ∈ contCompanies data ∧ 2 ≤ (monthsOf data c).length ∧
      continuityFor data maxMissing sev c = some r := by
    intro r hr
    unfold check_continuity at hr
    rw [List.mem_filterMap] at hr
    obtain ⟨c, hc, heq⟩ := hr
    refine ⟨c, hc, ?_, heq⟩
    by_cases hlen : (monthsOf data c).length < 2
    · rw [h1 c hlen] at heq
      cases heq
    · omega
  refine ⟨h1, h2, ?_⟩
  intro st r hr
  rcases List.mem_append.mp hr with h | h
  · exact Or.inl h
  · exact Or.inr (h2 r h)

/-- Witness for C10 at a concrete input: a company with a single distinct
period yields no continuity result. -/
theorem claim_C10_continuity_skips_witness :
    continuityFor [⟨some ("2025-01-01"), some ("A"), some 100, none⟩] 0
      "CRITICAL" ("A") = none :=
  (claim_C10_continuity_skips _ 0 "CRITICAL").1 ("A") (by decide)

end MetricsIntegrity

namespace MetricsIntegrity

/-- C3: the sum-integrity, both ratio-integrity and both formula-integrity
checks assign PASS exactly when the (unrounded) difference is strictly below
the tolerance, whereas the continuity check passes iff
`missing ≤ max_missing_months` and the anomaly-ratio summary passes iff
`critical_ratio ≤ max_critical_ratio` (both non-strict). -/
theorem claim_C3_comparison_policy :
    (∀ (data : List UsageRow) (tol : ℚ) (sev : String) r,
      r ∈ check_sum_integrity data tol sev → ∃ ym : String,
        r.difference = round2 (sumDiffRaw data ym) ∧
        (r.status = "PASS" ↔ sumDiffRaw data ym < tol)) ∧
    (∀ (data : List ShareRow) (tol : ℚ) (sev : String) r,
      r ∈ check_market_share_integrity data tol sev → ∃ ym : String,
        r.actual_value = round2 (shareTotal data ym) ∧
        (r.status = "PASS" ↔ |100 - shareTotal data ym| < tol)) ∧
    (∀ (data : List CategoryRow) (tol : ℚ) (sev : String) r,
      r ∈ check_category_ratio_integrity data tol sev → ∃ key : String,
        r.actual_value = round2 (catTotal data key) ∧
        (r.status = "PASS" ↔ |100 - catTotal data key| < tol)) ∧
    (∀ (data : List GrowthRow) (tol : ℚ) (sev : String) r,
      r ∈ check_formula_mom data tol sev → ∃ row ∈ data, ∃ mom prev curr : ℚ,
        momTriple row = some (mom, prev, curr) ∧
        (r.status = "PASS" ↔ |prev - reverseCalc mom curr| < tol)) ∧
    (∀ (data : List GrowthRow) (tol : ℚ) (sev : String) r,
      r ∈ check_formula_yoy data tol sev → ∃ row ∈ data, ∃ yoy prevY curr : ℚ,
        yoyTriple row = some (yoy, prevY, curr) ∧
        (r.status = "PASS" ↔ |prevY - reverseCalc yoy curr| < tol)) ∧
    (∀ (data : List MonthRow) (maxMissing : ℚ) (sev : String) r,
      r ∈ check_continuity data maxMissing sev →
        (r.status = "PASS" ↔ r.difference ≤ r.tolerance)) ∧
    (∀ (data : List MonthRow) (zWarning zCritical maxRatio : ℚ) (sev : String),
      (check_statistical_anomaly data zWarning zCritical maxRatio sev).head?
        = some (anomalySummary data zWarning zCritical maxRatio sev) ∧
      ((anomalySummary data zWarning zCritical maxRatio sev).status = "PASS" ↔
        criticalRatioOf data zWarning zCritical ≤ maxRatio)) := by
  refine ⟨?_, ?_, ?_, ?_, ?_, ?_, ?_⟩
  · intro data tol sev r hr
    obtain ⟨ym, _, rfl⟩ := List.mem_map.mp hr
    refine ⟨ym, rfl, ?_⟩
    show (if sumDiffRaw data ym < tol then "PASS" else "FAIL") = "PASS" ↔ _
    by_cases h : sumDiffRaw data ym < tol
    · rw [if_pos h]
      exact ⟨fun _ => h, fun _ => rfl⟩
    · rw [if_neg h]
      exact ⟨fun hc => absurd hc (by decide), fun hc => absurd hc h⟩
  · intro data tol sev r hr
    obtain ⟨ym, _, rfl⟩ := List.mem_map.mp hr
    refine ⟨ym, rfl, ?_⟩
    show (if |100 - shareTotal data ym| < tol then "PASS" else "FAIL") = "PASS" ↔ _
    by_cases h : |100 - shareTotal data ym| < tol
    · rw [if_pos h]
      exact ⟨fun _ => h, fun _ => rfl⟩
    · rw [if_neg h]
      exact ⟨fun hc => absurd hc (by decide), fun hc => absurd hc h⟩
  · intro data tol sev r hr
    obtain ⟨key, _, rfl⟩ := List.mem_map.mp hr
    refine ⟨key, rfl, ?_⟩
    show (if |100 - catTotal data key| < tol then "PASS" else "FAIL") = "PASS" ↔ _
    by_cases h : |100 - catTotal data key| < tol
    · rw [if_pos h]
      exact ⟨fun _ => h, fun _ => rfl⟩
    · rw [if_neg h]
      exact ⟨fun hc => absurd hc (by decide), fun hc => absurd hc h⟩
  · intro data tol sev r hr
    rw [check_formula_mom, List.mem_filterMap] at hr
    obtain ⟨row, hrow, heq⟩ := hr
    cases hmt : momTriple row with
    | none => rw [hmt] at heq; cases heq
    | some t =>
      rw [hmt] at heq
      obtain ⟨mom, prev, curr⟩ := t
      rw [Option.map_some'] at heq
      cases heq
      refine ⟨row, hrow, mom, prev, curr, hmt, ?_⟩
      show (if |prev - reverseCalc mom curr| < tol then "PASS" else "FAIL")
          = "PASS" ↔ _
      by_cases h : |prev - reverseCalc mom curr| < tol
      · rw [if_pos h]
        exact ⟨fun _ => h, fun _ => rfl⟩
      · rw [if_neg h]
        exact ⟨fun hc => absurd hc (by decide), fun hc => absurd hc h⟩
  · intro data tol sev r hr
    rw [check_formula_yoy, List.mem_filterMap] at hr
    obtain ⟨row, hrow, heq⟩ := hr
    cases hmt : yoyTriple row with
    | none => rw [hmt] at heq; cases heq
    | some t =>
      rw [hmt] at heq
      obtain ⟨yoy, prevY, curr⟩ := t
      rw [Option.map_some'] at heq
      cases heq
      refine ⟨row, hrow, yoy, prevY, curr, hmt, ?_⟩
      show (if |prevY - reverseCalc yoy curr| < tol then "PASS" else "FAIL")
          = "PASS" ↔ _
      by_cases h : |prevY - reverseCalc yoy curr| < tol
      · rw [if_pos h]
        exact ⟨fun _ => h, fun _ => rfl⟩
      · rw [if_neg h]
        exact ⟨fun hc => absurd hc (by decide), fun hc => absurd hc h⟩
  · intro data maxMissing sev r hr
    rw [check_continuity, List.mem_filterMap] at hr
    obtain ⟨c, _, heq⟩ := hr
    unfold continuityFor at heq
    by_cases hlen : (monthsOf data c).length < 2
    · rw [if_pos hlen] at heq
      cases heq
    · rw [if_neg hlen] at heq
      rw [Option.some_inj] at heq
      subst heq
      show (if ((expectedMonths (monthsOf data c)
          - ((monthsOf data c).length : ℤ) : ℤ) : ℚ) ≤ maxMissing
          then "PASS" else "FAIL") = "PASS" ↔ _
      by_cases h : ((expectedMonths (monthsOf data c)
          - ((monthsOf data c).length : ℤ) : ℤ) : ℚ) ≤ maxMissing
      · rw [if_pos h]
        exact ⟨fun _ => h, fun _ => rfl⟩
      · rw [if_neg h]
        exact ⟨fun hc => absurd hc (by decide), fun hc => absurd hc h⟩
  · intro data zWarning zCritical maxRatio sev
    refine ⟨rfl, ?_⟩
    show (if criticalRatioOf data zWarning zCritical ≤ maxRatio
        then "PASS" else "FAIL") = "PASS" ↔ _
    by_cases h : criticalRatioOf data zWarning zCritical ≤ maxRatio
    · rw [if_pos h]
      exact ⟨fun _ => h, fun _ => rfl⟩
    · rw [if_neg h]
      exact ⟨fun hc => absurd hc (by decide), fun hc => absurd hc h⟩

end MetricsIntegrity

namespace MetricsIntegrity

theorem headD_mem_of_ne_nil {α : Type} {l : List α} (h : l ≠ []) (d : α) :
    l.headD d ∈ l := by
  cases l with
  | nil => exact absurd rfl h
  | cons x xs => exact List.mem_cons_self _ _

/-- Witness for C3 at concrete one-row inputs for each of the six checks with
a membership hypothesis (the anomaly conjunct has none). -/
theorem claim_C3_comparison_policy_witness :
    (∃ ym : String,
      ((check_sum_integrity [⟨some ("2025-01"), some ("A"), some 100⟩] 1
          "CRITICAL").headD default).difference
        = round2 (sumDiffRaw [⟨some ("2025-01"), some ("A"), some 100⟩] ym) ∧
      (((check_sum_integrity [⟨some ("2025-01"), some ("A"), some 100⟩] 1
          "CRITICAL").headD default).status = "PASS" ↔
        sumDiffRaw [⟨some ("2025-01"), some ("A"), some 100⟩] ym < 1)) ∧
    (∃ ym : String,
      ((check_market_share_integrity [⟨some ("2025-01"), some ("A"), some 100,
          none⟩] (1/10) "CRITICAL").headD default).actual_value
        = round2 (shareTotal [⟨some ("2025-01"), some ("A"), some 100, none⟩] ym) ∧
      (((check_market_share_integrity [⟨some ("2025-01"), some ("A"), some 100,
          none⟩] (1/10) "CRITICAL").headD default).status = "PASS" ↔
        |100 - shareTotal [⟨some ("2025-01"), some ("A"), some 100, none⟩] ym|
          < 1/10)) ∧
    (∃ key : String,
      ((check_category_ratio_integrity [⟨some ("2025-01"), some ("A"),
          some ("F1"), some 100⟩] (1/2) "WARNING").headD default).actual_value
        = round2 (catTotal [⟨some ("2025-01"), some ("A"), some ("F1"),
            some 100⟩] key) ∧
      (((check_category_ratio_integrity [⟨some ("2025-01"), some ("A"),
          some ("F1"), some 100⟩] (1/2) "WARNING").headD default).status = "PASS" ↔
        |100 - catTotal [⟨some ("2025-01"), some ("A"), some ("F1"),
            some 100⟩] key| < 1/2)) ∧
    (∃ row ∈ [(⟨some ("2025-12"), some ("A"), some 110, some 100, none, none,
        some 10, none⟩ : GrowthRow)], ∃ mom prev curr : ℚ,
      momTriple row = some (mom, prev, curr) ∧
      (((check_formula_mom [⟨some ("2025-12"), some ("A"), some 110, some 100,
          none, none, some 10, none⟩] 10 "WARNING").headD default).status
        = "PASS" ↔ |prev - reverseCalc mom curr| < 10)) ∧
    (∃ row ∈ [(⟨some ("2025-12"), some ("A"), some 120, none, none, some 100,
        none, some 20⟩ : GrowthRow)], ∃ yoy prevY curr : ℚ,
      yoyTriple row = some (yoy, prevY, curr) ∧
      (((check_formula_yoy [⟨some ("2025-12"), some ("A"), some 120, none, none,
          some 100, none, some 20⟩] 10 "WARNING").headD default).status
        = "PASS" ↔ |prevY - reverseCalc yoy curr| < 10)) ∧
    (((check_continuity [⟨some ("2025-01-01"), some ("A"), some 100, none⟩,
        ⟨some ("2025-02-01"), some ("A"), some 110, none⟩] 0
        "CRITICAL").headD default).status = "PASS" ↔
      ((check_continuity [⟨some ("2025-01-01"), some ("A"), some 100, none⟩,
          ⟨some ("2025-02-01"), some ("A"), some 110, none⟩] 0
          "CRITICAL").headD default).difference
        ≤ ((check_continuity [⟨some ("2025-01-01"), some ("A"), some 100, none⟩,
            ⟨some ("2025-02-01"), some ("A"), some 110, none⟩] 0
            "CRITICAL").headD default).tolerance) := by
  have hne1 : check_sum_integrity [⟨some ("2025-01"), some ("A"), some 100⟩] 1
      "CRITICAL" ≠ [] := by
    unfold check_sum_integrity
    rw [show sumKeys [⟨some ("2025-01"), some ("A"), some 100⟩] = ["2025-01"]
      by decide]
    simp
  have hne2 : check_market_share_integrity [⟨some ("2025-01"), some ("A"),
      some 100, none⟩] (1/10) "CRITICAL" ≠ [] := by
    unfold check_market_share_integrity
    rw [show shareKeys [⟨some ("2025-01"), some ("A"), some 100, none⟩]
        = ["2025-01"] by decide]
    simp
  have hne3 : check_category_ratio_integrity [⟨some ("2025-01"), some ("A"),
      some ("F1"), some 100⟩] (1/2) "WARNING" ≠ [] := by
    unfold check_category_ratio_integrity
    rw [show catKeys [⟨some ("2025-01"), some ("A"), some ("F1"), some 100⟩]
        = ["2025-01|A"] by decide]
    simp
  have hmt : momTriple (⟨some ("2025-12"), some ("A"), some 110, some 100, none,
      none, some 10, none⟩ : GrowthRow) = some (10, 100, 110) := by decide
  have hne4 : check_formula_mom [⟨some ("2025-12"), some ("A"), some 110,
      some 100, none, none, some 10, none⟩] 10 "WARNING" ≠ [] := by
    unfold check_formula_mom
    simp only [List.filterMap_cons, List.filterMap_nil, hmt, Option.map_some']
    simp
  have hyt : yoyTriple (⟨some ("2025-12"), some ("A"), some 120, none, none,
      some 100, none, some 20⟩ : GrowthRow) = some (20, 100, 120) := by decide
  have hne5 : check_formula_yoy [⟨some ("2025-12"), some ("A"), some 120, none,
      none, some 100, none, some 20⟩] 10 "WARNING" ≠ [] := by
    unfold check_formula_yoy
    simp only [List.filterMap_cons, List.filterMap_nil, hyt, Option.map_some']
    simp
  have hms6 : monthsOf [⟨some ("2025-01-01"), some ("A"), some 100, none⟩,
      ⟨some ("2025-02-01"), some ("A"), some 110, none⟩] ("A")
      = ["2025-01-01", "2025-02-01"] := by
    simp [monthsOf, sortStr, firstOccur, MonthRow.ym, MonthRow.company,
      List.insertionSort, List.orderedInsert]
    decide
  have hsome6 : ∃ x, continuityFor [⟨some ("2025-01-01"), some ("A"), some 100,
      none⟩, ⟨some ("2025-02-01"), some ("A"), some 110, none⟩] 0 "CRITICAL"
      ("A") = some x := by
    unfold continuityFor
    rw [if_neg (by rw [hms6]; decide)]
    exact ⟨_, rfl⟩
  have hne6 : check_continuity [⟨some ("2025-01-01"), some ("A"), some 100,
      none⟩, ⟨some ("2025-02-01"), some ("A"), some 110, none⟩] 0
      "CRITICAL" ≠ [] := by
    obtain ⟨x, hx⟩ := hsome6
    unfold check_continuity
    rw [show contCompanies [⟨some ("2025-01-01"), some ("A"), some 100, none⟩,
        ⟨some ("2025-02-01"), some ("A"), some 110, none⟩] = ["A"] by decide]
    simp only [List.filterMap_cons, List.filterMap_nil, hx]
    simp
  exact ⟨claim_C3_comparison_policy.1 _ 1 "CRITICAL" _
      (headD_mem_of_ne_nil hne1 default),
    claim_C3_comparison_policy.2.1 _ (1/10) "CRITICAL" _
      (headD_mem_of_ne_nil hne2 default),
    claim_C3_comparison_policy.2.2.1 _ (1/2) "WARNING" _
      (headD_mem_of_ne_nil hne3 default),
    claim_C3_comparison_policy.2.2.2.1 _ 10 "WARNING" _
      (headD_mem_of_ne_nil hne4 default),
    claim_C3_comparison_policy.2.2.2.2.1 _ 10 "WARNING" _
      (headD_mem_of_ne_nil hne5 default),
    claim_C3_comparison_policy.2.2.2.2.2.1 _ 0 "CRITICAL" _
      (headD_mem_of_ne_nil hne6 default)⟩

end MetricsIntegrity

namespace MetricsIntegrity

theorem validateField_eq_nil_iff (kname : String) (kv : List (String × CVal))
    (fname : String) :
    validateField kname kv fname = [] ↔
      ∃ q, lookupKey kv fname = some (CVal.num q) := by
  unfold validateField
  cases h : lookupKey kv fname with
  | none => simp
  | some v => cases v <;> simp

theorem validateSeverity_eq_nil_iff (kname : String) (kv : List (String × CVal)) :
    validateSeverity kname kv = [] ↔
      ∃ s, lookupKey kv ("severity") = some (CVal.str s) ∧ SeverityOk s := by
  unfold validateSeverity
  cases h : lookupKey kv ("severity") with
  | none => simp
  | some v =>
    cases v with
    | str s =>
      by_cases hs : s = "CRITICAL" ∨ s = "WARNING" ∨ s = "INFO"
      · simp [hs, SeverityOk]
      · simp [hs, SeverityOk]
    | num q => simp
    | list xs => simp
    | map m => simp
    | null => simp

theorem validateThresholdKey_eq_nil_iff (th : List (String × CVal)) (key : String)
    (fields : List String) :
    validateThresholdKey th key fields = [] ↔ ThresholdKeyValid th key fields := by
  unfold validateThresholdKey ThresholdKeyValid
  cases h : lookupKey th key with
  | none => simp
  | some v =>
    cases v with
    | map kv =>
      rw [List.append_eq_nil, List.flatMap_eq_nil_iff]
      constructor
      · rintro ⟨hf, hs⟩
        refine ⟨kv, rfl, fun f hf' => (validateField_eq_nil_iff key kv f).mp (hf f hf'),
          (validateSeverity_eq_nil_iff key kv).mp hs⟩
      · rintro ⟨kv', hkv', hfields, hsev⟩
        rw [Option.some_inj] at hkv'
        cases hkv'
        exact ⟨fun f hf' => (validateField_eq_nil_iff key kv f).mpr (hfields f hf'),
          (validateSeverity_eq_nil_iff key kv).mpr hsev⟩
    | num q => simp
    | str s => simp
    | list xs => simp
    | null => simp

theorem validateThresholds_eq_nil_iff (entries : List (String × CVal)) :
    validateThresholds entries = [] ↔
      ∃ th, lookupKey entries ("thresholds") = some (CVal.map th) ∧
        ∀ kf ∈ requiredChecks, ThresholdKeyValid th kf.1 kf.2 := by
  unfold validateThresholds
  cases h : lookupKey entries ("thresholds") with
  | none => simp
  | some v =>
    cases v with
    | map th =>
      rw [List.flatMap_eq_nil_iff]
      constructor
      · intro hall
        exact ⟨th, rfl, fun kf hkf =>
          (validateThresholdKey_eq_nil_iff th kf.1 kf.2).mp (hall kf hkf)⟩
      · rintro ⟨th', hth', hall⟩
        rw [Option.some_inj] at hth'
        cases hth'
        exact fun kf hkf => (validateThresholdKey_eq_nil_iff th kf.1 kf.2).mpr
          (hall kf hkf)
    | num q => simp
    | str s => simp
    | list xs => simp
    | null => simp

theorem validateRetention_eq_nil_iff (rep : List (String × CVal)) :
    validateRetention rep = [] ↔
      (∀ q, lookupKey rep ("retention_days") = some (CVal.num q) → 0 ≤ q) := by
  unfold validateRetention
  cases hrd : lookupKey rep ("retention_days") with
  | none => simp
  | some w =>
    cases w with
    | num q =>
      by_cases hq : q < 0
      · have hq' : ¬ (0 : ℚ) ≤ q := not_le.mpr hq
        simp [hq, hq']
      · simp [hq, le_of_not_lt hq]
    | str s => simp
    | list xs => simp
    | map m => simp
    | null => simp

theorem validateReporting_eq_nil_iff (entries : List (String × CVal)) :
    validateReporting entries = [] ↔
      (∀ rep q, lookupKey entries ("reporting") = some (CVal.map rep) →
        lookupKey rep ("retention_days") = some (CVal.num q) → 0 ≤ q) := by
  unfold validateReporting
  cases h : lookupKey entries ("reporting") with
  | none => simp
  | some v =>
    cases v with
    | map rep =>
      rw [validateRetention_eq_nil_iff]
      constructor
      · intro hall rep' q hrep' hq'
        rw [Option.some_inj, CVal.map.injEq] at hrep'
        cases hrep'
        exact hall q hq'
      · intro hall q hq
        exact hall rep q rfl hq
    | num q => simp
    | str s => simp
    | list xs => simp
    | null => simp

/-- C2 (spec-modelled): the schema-validation routine returns its violations
as a list of messages and returns the empty list exactly when the
configuration is valid — top level a mapping, `thresholds` present and a
mapping, each of the ten required check keys present with its required
numeric fields and a severity among CRITICAL, WARNING, INFO, and
`reporting.retention_days` (when present) non-negative.  Being a total
function into `List String`, it never raises. -/
theorem claim_C2_validate_config_schema (cfg : CVal) :
    validate_config_schema cfg = [] ↔ ConfigValid cfg := by
  unfold validate_config_schema ConfigValid
  cases cfg with
  | map entries =>
    rw [List.append_eq_nil, validateThresholds_eq_nil_iff,
      validateReporting_eq_nil_iff]
    constructor
    · rintro ⟨hth, hrep⟩
      exact ⟨entries, rfl, hth, hrep⟩
    · rintro ⟨entries', hent, hth, hrep⟩
      rw [CVal.map.injEq] at hent
      cases hent
      exact ⟨hth, hrep⟩
  | num q => simp
  | str s => simp
  | list xs => simp
  | null => simp

end MetricsIntegrity
